import Mathlib

/-!
# Live usage cache and billing ledger

A shallow embedding of `satellite/accounting/live/redis.go` and
`satellite/satellitedb/billingdb.go`, and the properties of the two that have
been checked against it.

Conventions of the embedding:

* a Go `string` / `[]byte` is the list of its bytes (`List Nat`);
* a Go `map` is an association list with unique keys (`mapGet` / `mapSet`);
* a method that talks to a store takes the store's state as an argument and
  returns the new state next to its Go results;
* Go `int64` values are mathematical integers: the cache server checks the
  64-bit range of its counters, Go arithmetic on amounts wraps around
  (`wrapInt64`), and the numbers of a Lua script and of a decoded JSON document
  are `float64`;
* transport failures of the stores are not part of the state and are left out:
  the only errors of the embedding are the ones the code or a store command
  produces deterministically.
-/

set_option autoImplicit false

namespace Storj

/-! ## Go maps as association lists -/

section GoMap

variable {κ α : Type} [DecidableEq κ]

/-- Go `m[k]` with the comma-ok form: the value bound to `k`, if any. -/
def mapGet (m : List (κ × α)) (k : κ) : Option α :=
  match m with
  | [] => none
  | (k', v) :: rest => if k' = k then some v else mapGet rest k

/-- Go `m[k] = v`: rebinds `k` where it is, or adds it. -/
def mapSet (m : List (κ × α)) (k : κ) (v : α) : List (κ × α) :=
  match m with
  | [] => [(k, v)]
  | (k', v') :: rest => if k' = k then (k, v) :: rest else (k', v') :: mapSet rest k v

/-- Go `delete(m, k)`. -/
def mapDel (m : List (κ × α)) (k : κ) : List (κ × α) :=
  m.filter (fun p => decide (p.1 ≠ k))

end GoMap

/-! ## Keys of the live accounting cache -/

/-- A Go string, as its bytes. -/
abbrev Key := List Nat

/-- Type `uuid.UUID`: an array of 16 bytes. -/
structure UUID where
  bytes : List Nat
  len : bytes.length = 16
  deriving DecidableEq

/-- The part of `time.Time` that `now.Date()` returns. -/
structure Time where
  year : Int
  month : Nat
  day : Nat
  deriving DecidableEq

/-- Method `now.Date()`. -/
def Time.Date (now : Time) : Int × Nat × Nat := (now.year, now.month, now.day)

/-- Go `byte(n)` of a non-negative integer. -/
def byte (n : Nat) : Nat := n % 256

/-- Go `string(b)` of a byte `b`: the UTF-8 encoding of the code point `b`,
which is the byte itself below 128 and two bytes from 128 on. -/
def stringOfByte (b : Nat) : Key :=
  if b < 128 then [b] else [192 + b / 64, 128 + b % 64]

/-- The bytes of the literal `":bandwidth"`. -/
def bandwidthSuffix : Key := [58, 98, 97, 110, 100, 119, 105, 100, 116, 104]

/-- The bytes of the literal `":segment"`. -/
def segmentSuffix : Key := [58, 115, 101, 103, 109, 101, 110, 116]

/-- The bytes of the literal `"bandwidth"`. -/
def bandwidthWord : Key := [98, 97, 110, 100, 119, 105, 100, 116, 104]

/-- The bytes of the literal `"segment"`. -/
def segmentWord : Key := [115, 101, 103, 109, 101, 110, 116]

/-- Source `createBandwidthProjectIDKey`:
`string(projectID[:]) + string(byte(month)) + string(byte(day)) + ":bandwidth"`. -/
def createBandwidthProjectIDKey (projectID : UUID) (now : Time) : Key :=
  match now.Date with
  | (_, month, day) =>
    projectID.bytes ++ stringOfByte (byte month) ++ stringOfByte (byte day) ++ bandwidthSuffix

/-- Source `createSegmentProjectIDKey`: `string(projectID[:]) + ":segment"`. -/
def createSegmentProjectIDKey (projectID : UUID) : Key :=
  projectID.bytes ++ segmentSuffix

/-- Source `createStorageProjectIDKey`: `string(projectID[:])`. -/
def createStorageProjectIDKey (projectID : UUID) : Key :=
  projectID.bytes

/-! ## The cache server

The Redis commands the code issues, after the Redis command reference. -/

/-- Smallest `int64`. -/
def minInt64 : Int := -9223372036854775808

/-- Largest `int64`. -/
def maxInt64 : Int := 9223372036854775807

/-- Whether an integer is an `int64`. -/
def inInt64 (n : Int) : Prop := minInt64 ≤ n ∧ n ≤ maxInt64

instance (n : Int) : Decidable (inInt64 n) := by
  unfold inInt64; exact inferInstance

/-- A stored string: either the canonical decimal text of an integer, or some
other text, kept with what `strconv.ParseInt(_, 10, 64)` makes of it (the
server's own integer commands reject every such text). -/
inductive Val where
  | int (n : Int)
  | text (goParse : Option Int)
  deriving DecidableEq

/-- A key's entry: its string value and its time to live in seconds, if it has
one. -/
structure Entry where
  val : Val
  ttl : Option Int
  deriving DecidableEq

/-- The state of the cache server. -/
abbrev Redis := List (Key × Entry)

/-- Error replies of the server. -/
inductive RedisErr where
  | notAnInteger
  | overflow
  deriving DecidableEq

/-- Command `GET key`: the value, or nil. -/
def Redis.get (r : Redis) (key : Key) : Option Val :=
  (mapGet r key).map Entry.val

/-- The time to live of a key (`TTL key`), if the key is there and has one. -/
def Redis.ttl (r : Redis) (key : Key) : Option Int :=
  (mapGet r key).bind Entry.ttl

/-- Command `INCRBY key increment`: an absent key counts as 0; the value has
to be an integer and the result has to be a signed 64-bit integer; the time to
live of the key is kept. Replies with the new value. -/
def Redis.incrby (r : Redis) (key : Key) (increment : Int) : Except RedisErr (Int × Redis) :=
  match mapGet r key with
  | none =>
    if inInt64 (0 + increment) then
      .ok (0 + increment, mapSet r key ⟨Val.int (0 + increment), none⟩)
    else .error .overflow
  | some ⟨Val.int n, ttl⟩ =>
    if inInt64 n ∧ inInt64 (n + increment) then
      .ok (n + increment, mapSet r key ⟨Val.int (n + increment), ttl⟩)
    else .error .overflow
  | some ⟨Val.text _, _⟩ => .error .notAnInteger

/-- Command `DECRBY key decrement`: the server rejects the decrement -2^63,
whose negation is no signed 64-bit integer, before it looks at the key; any
other decrement is subtracted the way `INCRBY` adds, with the range check on
the result. -/
def Redis.decrby (r : Redis) (key : Key) (decrement : Int) : Except RedisErr (Int × Redis) :=
  if decrement = minInt64 then .error .overflow
  else
    match mapGet r key with
    | none =>
      if inInt64 (0 - decrement) then
        .ok (0 - decrement, mapSet r key ⟨Val.int (0 - decrement), none⟩)
      else .error .overflow
    | some ⟨Val.int n, ttl⟩ =>
      if inInt64 n ∧ inInt64 (n - decrement) then
        .ok (n - decrement, mapSet r key ⟨Val.int (n - decrement), ttl⟩)
      else .error .overflow
    | some ⟨Val.text _, _⟩ => .error .notAnInteger

/-- Command `SETNX key value`: sets the key, without a time to live, when it
is absent. Replies 1 when it set the key and 0 otherwise. -/
def Redis.setnx (r : Redis) (key : Key) (value : Int) : Int × Redis :=
  match mapGet r key with
  | none => (1, mapSet r key ⟨Val.int value, none⟩)
  | some _ => (0, r)

/-- Command `EXPIRE key seconds`: replies 0 for an absent key; a timeout that
is not positive deletes the key; otherwise the key's time to live becomes
`seconds`. -/
def Redis.expire (r : Redis) (key : Key) (seconds : Int) : Int × Redis :=
  match mapGet r key with
  | none => (0, r)
  | some e =>
    if seconds ≤ 0 then (1, mapDel r key)
    else (1, mapSet r key ⟨e.val, some seconds⟩)

/-- Command `MGET key...`: for each key its value, or nil. -/
def Redis.mget (r : Redis) (keys : List Key) : List (Option Val) :=
  keys.map r.get

/-- Command `SCAN 0 MATCH *`, iterated to the end: every key of the server. -/
def Redis.scan (r : Redis) : List Key :=
  r.map Prod.fst

/-! ## The live accounting cache -/

/-- Error classes of package `accounting`, and the two run-time faults of the
Go program that the code can run into. -/
inductive Err where
  | SystemOrNetError
  | KeyNotFound
  | UnexpectedValue
  | ProjectLimitExceeded
  | GetProjectLimitCache
  | nilInterfaceConversion
  | indexOutOfRange
  deriving DecidableEq

/-- Function `strconv.ParseInt(s, 10, 64)` on a stored value. -/
def parseInt (v : Val) : Option Int :=
  match v with
  | Val.int n => if inInt64 n then some n else none
  | Val.text goParse => goParse

/-- Source `getInt64`. -/
def getInt64 (cache : Redis) (key : Key) : Except Err Int :=
  match cache.get key with
  | none => .error .KeyNotFound
  | some val =>
    match parseInt val with
    | none => .error .UnexpectedValue
    | some intval => .ok intval

/-- Source `GetProjectStorageUsage`. -/
def GetProjectStorageUsage (cache : Redis) (projectID : UUID) : Except Err Int :=
  getInt64 cache (createStorageProjectIDKey projectID)

/-- Source `GetProjectBandwidthUsage`. -/
def GetProjectBandwidthUsage (cache : Redis) (projectID : UUID) (now : Time) : Except Err Int :=
  getInt64 cache (createBandwidthProjectIDKey projectID now)

/-- Source `GetProjectSegmentUsage`. -/
def GetProjectSegmentUsage (cache : Redis) (projectID : UUID) : Except Err Int :=
  getInt64 cache (createSegmentProjectIDKey projectID)

/-- Source `AddProjectSegmentUsageUpToLimit`: the returned error (`none` is Go
`nil`) and the cache afterwards. -/
def AddProjectSegmentUsageUpToLimit (cache : Redis) (projectID : UUID) (increment : Int)
    (segmentLimit : Int) : Option Err × Redis :=
  let key := createSegmentProjectIDKey projectID
  match cache.incrby key increment with
  | .error _ => (some .SystemOrNetError, cache)
  | .ok (newSegmentUsage, cache1) =>
    if newSegmentUsage > segmentLimit then
      match cache1.decrby key increment with
      | .error _ => (some .SystemOrNetError, cache1)
      | .ok (_, cache2) => (some .ProjectLimitExceeded, cache2)
    else (none, cache1)

/-- Source `AddProjectStorageUsageUpToLimit`; the key is `string(projectID[:])`,
written out in the source rather than built by `createStorageProjectIDKey`. -/
def AddProjectStorageUsageUpToLimit (cache : Redis) (projectID : UUID) (increment : Int)
    (spaceLimit : Int) : Option Err × Redis :=
  match cache.incrby projectID.bytes increment with
  | .error _ => (some .SystemOrNetError, cache)
  | .ok (newSpaceUsage, cache1) =>
    if newSpaceUsage > spaceLimit then
      match cache1.decrby projectID.bytes increment with
      | .error _ => (some .SystemOrNetError, cache1)
      | .ok (_, cache2) => (some .ProjectLimitExceeded, cache2)
    else (none, cache1)

/-- Source `UpdateProjectSegmentUsage`. -/
def UpdateProjectSegmentUsage (cache : Redis) (projectID : UUID) (increment : Int) :
    Option Err × Redis :=
  let key := createSegmentProjectIDKey projectID
  match cache.incrby key increment with
  | .error _ => (some .SystemOrNetError, cache)
  | .ok (_, cache1) => (none, cache1)

/-- Source `AddProjectStorageUsage`. -/
def AddProjectStorageUsage (cache : Redis) (projectID : UUID) (spaceUsed : Int) :
    Option Err × Redis :=
  match cache.incrby (createStorageProjectIDKey projectID) spaceUsed with
  | .error _ => (some .SystemOrNetError, cache)
  | .ok (_, cache1) => (none, cache1)

/-- The script of `InsertProjectBandwidthUsage`:
`inserted = setnx KEYS[1] ARGV[1]; if inserted == 1 then expire KEYS[1] ARGV[2]; return inserted`.
-/
def insertScript (r : Redis) (key : Key) (value : Int) (seconds : Int) : Int × Redis :=
  match r.setnx key value with
  | (inserted, r1) =>
    if inserted = 1 then (inserted, (r1.expire key seconds).2)
    else (inserted, r1)

/-- Source `InsertProjectBandwidthUsage`: the results `inserted` and `err`, and
the cache afterwards. The argument `ttl` is the duration in whole seconds, the
number `int(ttl.Seconds())` that the source hands to the script. -/
def InsertProjectBandwidthUsage (cache : Redis) (projectID : UUID) (value : Int) (ttl : Int)
    (now : Time) : (Bool × Option Err) × Redis :=
  let key := createBandwidthProjectIDKey projectID now
  match insertScript cache key value ttl with
  | (insert, cache1) => ((decide (insert = 1), none), cache1)

/-- The distance between neighbouring `float64` numbers at the natural number
`n`: 1 below 2^53, and twice as much for every halving of `n` that it takes to
get below 2^53. The first argument bounds the number of halvings. -/
def float64Unit : Nat → Nat → Nat
  | 0, _ => 1
  | fuel + 1, n => if n < 9007199254740992 then 1 else 2 * float64Unit fuel (n / 2)

/-- The `float64` nearest to the natural number `n`, the even one of two that
are equally near. -/
def roundFloat64 (n : Nat) : Nat :=
  let unit := float64Unit n n
  let q := n / unit
  let r := n % unit
  if 2 * r < unit then q * unit
  else if unit < 2 * r then (q + 1) * unit
  else if q % 2 = 0 then q * unit
  else (q + 1) * unit

/-- The Lua number (a `float64`) that the script gets for an integer: by
`tonumber` of the integer reply of a command, and by `tonumber` of the decimal
digits of an argument. -/
def luaNumber (n : Int) : Int :=
  if n < 0 then -((roundFloat64 n.natAbs : Nat) : Int) else ((roundFloat64 n.natAbs : Nat) : Int)

/-- The script of `UpdateProjectBandwidthUsage`:
`current = incrby KEYS[1] ARGV[1]; if tonumber(current) == tonumber(ARGV[1]) then expire KEYS[1] ARGV[2]; return current`.
A failing command fails the script. The comparison is the one of Lua numbers.
-/
def updateScript (r : Redis) (key : Key) (increment : Int) (seconds : Int) :
    Except RedisErr (Int × Redis) :=
  match r.incrby key increment with
  | .error e => .error e
  | .ok (current, r1) =>
    if luaNumber current = luaNumber increment then .ok (current, (r1.expire key seconds).2)
    else .ok (current, r1)

/-- Source `UpdateProjectBandwidthUsage`; `ttl` is in whole seconds, as for
`InsertProjectBandwidthUsage`. -/
def UpdateProjectBandwidthUsage (cache : Redis) (projectID : UUID) (increment : Int) (ttl : Int)
    (now : Time) : Option Err × Redis :=
  let key := createBandwidthProjectIDKey projectID now
  match updateScript cache key increment ttl with
  | .error _ => (some .SystemOrNetError, cache)
  | .ok (_, cache1) => (none, cache1)

/-- Type `accounting.Usage`. -/
structure Usage where
  Storage : Int
  Segments : Int
  deriving DecidableEq

/-- The zero value `accounting.Usage{}`. -/
def Usage.zero : Usage := ⟨0, 0⟩

/-- Function `strings.HasSuffix`. -/
def HasSuffix (s suffix : Key) : Bool :=
  decide (s.drop (s.length - suffix.length) = suffix)

/-- Function `strings.TrimSuffix`. -/
def TrimSuffix (s suffix : Key) : Key :=
  if HasSuffix s suffix then s.take (s.length - suffix.length) else s

/-- Function `uuid.FromBytes`: fails unless there are exactly 16 bytes. -/
def UUID.FromBytes (b : List Nat) : Option UUID :=
  if h : b.length = 16 then some ⟨b, h⟩ else none

/-- The key loop of source `GetAllProjectTotals`, over the keys the scan
yields: the tenants found, or the error it stops with. -/
def scanProjects (keys : List Key) (projects : List (UUID × Usage)) :
    Except Err (List (UUID × Usage)) :=
  match keys with
  | [] => .ok projects
  | key :: rest =>
    if HasSuffix key bandwidthWord then scanProjects rest projects
    else if HasSuffix key segmentWord then
      match UUID.FromBytes (TrimSuffix key segmentSuffix) with
      | none => .error .UnexpectedValue
      | some projectID => scanProjects rest (mapSet projects projectID Usage.zero)
    else
      match UUID.FromBytes key with
      | none => .error .UnexpectedValue
      | some projectID => scanProjects rest (mapSet projects projectID Usage.zero)

/-- The loop `for i, projectID := range projectIDs` of `fetchProjectsUsage` in
source `fillUsage`. The type assertion `.(string)` on a nil reply is a
run-time fault. -/
def fetchLoop (projectIDs : List UUID) (segmentResult storageResult : List (Option Val))
    (projects : List (UUID × Usage)) : Except Err (List (UUID × Usage)) :=
  match projectIDs, segmentResult, storageResult with
  | [], _, _ => .ok projects
  | projectID :: ids, segmentReply :: segs, storageReply :: stors =>
    match segmentReply with
    | none => .error .nilInterfaceConversion
    | some segmentUsageValue =>
      match parseInt segmentUsageValue with
      | none => .error .UnexpectedValue
      | some segmentsUsage =>
        match storageReply with
        | none => .error .nilInterfaceConversion
        | some storageUsageValue =>
          match parseInt storageUsageValue with
          | none => .error .UnexpectedValue
          | some storageUsage =>
            fetchLoop ids segs stors (mapSet projects projectID ⟨storageUsage, segmentsUsage⟩)
  | _ :: _, _, _ => .error .indexOutOfRange

/-- The three slices that source `fillUsage` fills up to the batch size. -/
structure Batch where
  projectIDs : List UUID
  segmentKeys : List Key
  storageKeys : List Key

/-- The closure `fetchProjectsUsage` of source `fillUsage`. -/
def fetchProjectsUsage (cache : Redis) (batch : Batch) (projects : List (UUID × Usage)) :
    Except Err (List (UUID × Usage)) :=
  if batch.projectIDs.length = 0 then .ok projects
  else
    let segmentResult := cache.mget batch.segmentKeys
    let storageResult := cache.mget batch.storageKeys
    fetchLoop batch.projectIDs segmentResult storageResult projects

/-- The loop `for projectID := range projects` of source `fillUsage`, over the
tenants still to visit. -/
def fillLoop (cache : Redis) (batchSize : Int) (todo : List UUID) (batch : Batch)
    (projects : List (UUID × Usage)) : Except Err (Batch × List (UUID × Usage)) :=
  match todo with
  | [] => .ok (batch, projects)
  | projectID :: rest =>
    let batch1 : Batch :=
      ⟨batch.projectIDs ++ [projectID],
       batch.segmentKeys ++ [createSegmentProjectIDKey projectID],
       batch.storageKeys ++ [createStorageProjectIDKey projectID]⟩
    if (batch1.projectIDs.length : Int) ≥ batchSize then
      match fetchProjectsUsage cache batch1 projects with
      | .error e => .error e
      | .ok projects1 => fillLoop cache batchSize rest ⟨[], [], []⟩ projects1
    else fillLoop cache batchSize rest batch1 projects

/-- Source `fillUsage`; `none` is the nil map. The tenants are visited in the
order of the association list. The batch size is taken to be a capacity that
`make` accepts, that is, not negative. -/
def fillUsage (cache : Redis) (batchSize : Int) (projects : List (UUID × Usage)) :
    Except Err (Option (List (UUID × Usage))) :=
  if projects.length = 0 then .ok none
  else
    match fillLoop cache batchSize (projects.map Prod.fst) ⟨[], [], []⟩ projects with
    | .error e => .error e
    | .ok (batch, projects1) =>
      match fetchProjectsUsage cache batch projects1 with
      | .error e => .error e
      | .ok projects2 => .ok (some projects2)

/-- Source `GetAllProjectTotals`. -/
def GetAllProjectTotals (cache : Redis) (batchSize : Int) :
    Except Err (Option (List (UUID × Usage))) :=
  match scanProjects cache.scan [] with
  | .error e => .error e
  | .ok projects => fillUsage cache batchSize projects

/-! ## The billing ledger (`billingdb.go`) -/

/-- A currency of package `currency`: its symbol and the number of decimal
places of its base unit. -/
structure Currency where
  symbol : String
  decimalPlaces : Nat
  deriving DecidableEq

/-- Value `currency.USDollarsMicro`: US dollars with six decimal places. -/
def USDollarsMicro : Currency := ⟨"USDMicro", 6⟩

/-- Value `currency.USDollars`: US dollars with two decimal places, the base
unit being the cent. -/
def USDollars : Currency := ⟨"USD", 2⟩

/-- Type `currency.Amount`: a number of base units of a currency. The base
units are a Go `int64`. -/
structure Amount where
  baseUnits : Int
  currency : Currency
  deriving DecidableEq

/-- The Go `int64` that an `int64` operation gives for the mathematical
result `n`: the integer of the 64-bit range that differs from `n` by a multiple
of 2^64. -/
def wrapInt64 (n : Int) : Int :=
  (n + 9223372036854775808) % 18446744073709551616 - 9223372036854775808

/-- Method `(*big.Int).Int64`, which `Decimal.IntPart` returns: the low 64
bits of the magnitude, read as an `int64`, and negated for a negative number.
It is the number itself when that is a signed 64-bit integer. -/
def bigIntInt64 (x : Int) : Int :=
  let low := wrapInt64 ((x.natAbs % 18446744073709551616 : Nat) : Int)
  if x < 0 then wrapInt64 (-low) else low

/-- Function `currency.Add`: fails when the currencies differ; the base units
are added as Go `int64` values, so the sum wraps around. -/
def currencyAdd (a b : Amount) : Option Amount :=
  if a.currency = b.currency then some ⟨wrapInt64 (a.baseUnits + b.baseUnits), a.currency⟩
  else none

/-- Method `Amount.IsNegative`. -/
def Amount.IsNegative (a : Amount) : Bool := decide (a.baseUnits < 0)

/-- The closure `convertToUSDMicro` of source `tryInsert`:
`AmountFromDecimal(amount.AsDecimal().Truncate(6), USDollarsMicro)`. The
decimal value `baseUnits / 10^decimalPlaces` is exact; it is cut after its
sixth decimal place, towards zero, shifted by six places to a whole number of
micro-dollars, and that number is turned into the `int64` base units by
`Decimal.IntPart`. -/
def convertToUSDMicro (amount : Amount) : Amount :=
  if amount.currency.decimalPlaces ≤ USDollarsMicro.decimalPlaces then
    ⟨bigIntInt64
       (amount.baseUnits
         * 10 ^ (USDollarsMicro.decimalPlaces - amount.currency.decimalPlaces)),
     USDollarsMicro⟩
  else
    ⟨bigIntInt64
       (Int.tdiv amount.baseUnits
         (10 ^ (amount.currency.decimalPlaces - USDollarsMicro.decimalPlaces))),
     USDollarsMicro⟩

/-- A member value of a JSON object, as package `encoding/json` treats it
when it decodes the value into an `interface{}` and encodes what it decoded.
`V` is the type of JSON values. -/
inductive Member (V : Type) where
  /-- A value that the decoder accepts: the value as it is written, and the
  value that the encoder writes for what was decoded. The two are the same
  value for a string, a boolean, `null` and a number that a `float64` holds
  exactly; a number that a `float64` does not hold comes back rounded. -/
  | decodes (written reencoded : V)
  /-- A value that the decoder rejects: a number outside the range of
  `float64`, or an array or object that holds one. -/
  | fails (written : V)

/-- The value of a member as it is written. -/
def Member.written {V : Type} : Member V → V
  | .decodes written _ => written
  | .fails written => written

/-- The value that the encoder writes for a member after decoding, if the
decoder accepts the member. -/
def Member.reencoded {V : Type} : Member V → Option V
  | .decodes _ reencoded => some reencoded
  | .fails _ => none

/-- The content of a byte slice that holds a metadata document, as package
`encoding/json` reads it when it decodes into a `map[string]interface{}`. -/
inductive Content (V : Type) where
  /-- A slice of length zero. -/
  | empty
  /-- Bytes that are not a JSON text. -/
  | invalid
  /-- The JSON text `null`. -/
  | null
  /-- A JSON object, with its members in the order of the text. -/
  | object (members : List (Key × Member V))
  /-- Any other JSON value: an array, a string, a number or a boolean. -/
  | other

/-- A Go `[]byte` holding a metadata document: `none` is the nil slice. -/
abbrev Bytes (V : Type) := Option (Content V)

/-- Errors of the billing database. -/
inductive BillingErr where
  | InsufficientFunds
  | constraintViolation
  | currencyMismatch
  | tooManySupplementalTxs
  | retriesExhausted
  | noRows
  | jsonSyntax
  | jsonType
  deriving DecidableEq

/-- Function `pgerrcode.IsConstraintViolation`. -/
def IsConstraintViolation (e : BillingErr) : Bool := decide (e = .constraintViolation)

/-- The members of a JSON object decoded one after the other, each key with
the Go value of its member (given by the value the encoder writes for it);
`none` when the decoder rejects a member. -/
def decodeMembers {V : Type} : List (Key × Member V) → Option (List (Key × V))
  | [] => some []
  | (key, .decodes _ reencoded) :: rest => (decodeMembers rest).map ((key, reencoded) :: ·)
  | (_, .fails _) :: _ => none

/-- Function `json.Unmarshal(data, &m)` for `m` of type
`map[string]interface{}`: a nil or empty or malformed input is a syntax error,
`null` sets `m` to nil, an object stores its decoded members into `m` one after
the other (allocating `m` when it is nil) and is an error when the decoder
rejects a member, and any other value is a type error. -/
def jsonUnmarshal {V : Type} (data : Bytes V) (m : Option (List (Key × V))) :
    Except BillingErr (Option (List (Key × V))) :=
  match data with
  | none => .error .jsonSyntax
  | some .empty => .error .jsonSyntax
  | some .invalid => .error .jsonSyntax
  | some .null => .ok none
  | some (.object members) =>
    match decodeMembers members with
    | none => .error .jsonType
    | some decoded => .ok (some (decoded.foldl (fun acc kv => mapSet acc kv.1 kv.2) (m.getD [])))
  | some .other => .error .jsonType

/-- The order of Go strings: byte by byte. -/
def stringLE (a b : Key) : Bool :=
  match a, b with
  | [], _ => true
  | _ :: _, [] => false
  | x :: xs, y :: ys => if x < y then true else if x = y then stringLE xs ys else false

/-- Function `json.Marshal(m)` for a `map[string]interface{}`: `null` for the
nil map, else the object with the keys of `m` in sorted order. What the encoder
writes for a Go value, the decoder accepts and the encoder writes again. -/
def jsonMarshal {V : Type} (m : Option (List (Key × V))) : Bytes V :=
  match m with
  | none => some .null
  | some members =>
    some (.object ((members.insertionSort (fun a b => stringLE a.1 b.1 = true)).map
      (fun kv => (kv.1, Member.decodes kv.2 kv.2))))

/-- Source `handleMetaDataZeroValue`: the bytes `{}` for the nil slice. -/
def handleMetaDataZeroValue {V : Type} (metaData : Bytes V) : Bytes V :=
  match metaData with
  | some content => some content
  | none => some (.object [])

/-- Source `updateMetadata`. -/
def updateMetadata {V : Type} (oldMetaData newMetaData : Bytes V) : Except BillingErr (Bytes V) :=
  let updatedMetadata : Option (List (Key × V)) := none
  match jsonUnmarshal oldMetaData updatedMetadata with
  | .error e => .error e
  | .ok updatedMetadata1 =>
    match jsonUnmarshal (handleMetaDataZeroValue newMetaData) updatedMetadata1 with
    | .error e => .error e
    | .ok updatedMetadata2 => .ok (jsonMarshal updatedMetadata2)

/-- Type `billing.Transaction`, the fields that `Insert` stores; `TxType` is the
field `Type`. -/
structure Transaction (V : Type) where
  UserID : UUID
  Amount : Amount
  Description : String
  Source : String
  Status : String
  TxType : String
  Metadata : Bytes V
  Timestamp : Int

/-- A row of table `billing_transactions`; `TxType` is the column `type`. -/
structure BillingTransaction (V : Type) where
  Id : Int
  UserId : UUID
  Amount : Int
  Currency : String
  Description : String
  Source : String
  Status : String
  TxType : String
  Metadata : Bytes V
  Timestamp : Int

/-- The database: table `billing_balances` (one row per user, keyed by the
user), table `billing_transactions`, and the next value of its id sequence. -/
structure DB (V : Type) where
  balances : List (UUID × Int)
  transactions : List (BillingTransaction V)
  nextId : Int

/-- Source `GetBalance`: zero when the user has no row. -/
def GetBalance {V : Type} (db : DB V) (userID : UUID) : Amount :=
  match mapGet db.balances userID with
  | none => ⟨0, USDollarsMicro⟩
  | some balance => ⟨balance, USDollarsMicro⟩

/-- The type `balanceUpdate` of source `tryInsert`. -/
structure balanceUpdate where
  OldBalance : Amount
  NewBalance : Amount
  deriving DecidableEq

/-- The closure `adjustBalance` of source `tryInsert`, on the map `balances`.
-/
def adjustBalance {V : Type} (db : DB V) (balances : List (UUID × balanceUpdate)) (userID : UUID)
    (amount : Amount) : Except BillingErr (List (UUID × balanceUpdate)) :=
  let entry : balanceUpdate × List (UUID × balanceUpdate) :=
    match mapGet balances userID with
    | some balance => (balance, balances)
    | none =>
      let oldBalance := GetBalance db userID
      (⟨oldBalance, oldBalance⟩, mapSet balances userID ⟨oldBalance, oldBalance⟩)
  match currencyAdd entry.1.NewBalance (convertToUSDMicro amount) with
  | none => .error .currencyMismatch
  | some newBalance =>
    if newBalance.IsNegative then .error .InsufficientFunds
    else .ok (mapSet entry.2 userID ⟨entry.1.OldBalance, newBalance⟩)

/-- The calls of `adjustBalance` in source `tryInsert`, for the primary
transaction and then each supplemental one. -/
def adjustBalances {V : Type} (db : DB V) (txs : List (Transaction V))
    (balances : List (UUID × balanceUpdate)) : Except BillingErr (List (UUID × balanceUpdate)) :=
  match txs with
  | [] => .ok balances
  | tx :: rest =>
    match adjustBalance db balances tx.UserID tx.Amount with
    | .error e => .error e
    | .ok balances1 => adjustBalances db rest balances1

/-- The closure `updateBalance` of source `tryInsert`: the update of the row
whose user and balance are the ones given, and, when no row was updated, the
insertion of a row, which the unique key on the user rejects when the user has
a row. -/
def updateBalance {V : Type} (tx : DB V) (userID : UUID) (oldBalance newBalance : Amount) :
    Except BillingErr (DB V) :=
  let updatedRow : Option (DB V) :=
    match mapGet tx.balances userID with
    | some balance =>
      if balance = oldBalance.baseUnits then
        some { tx with balances := mapSet tx.balances userID newBalance.baseUnits }
      else none
    | none => none
  match updatedRow with
  | some tx1 => .ok tx1
  | none =>
    match mapGet tx.balances userID with
    | some _ => .error .constraintViolation
    | none => .ok { tx with balances := mapSet tx.balances userID newBalance.baseUnits }

/-- The closure `createTransaction` of source `tryInsert`: the id of the new
row and the database with it. -/
def createTransaction {V : Type} (tx : DB V) (billingTX : Transaction V) : Int × DB V :=
  let amount := convertToUSDMicro billingTX.Amount
  let row : BillingTransaction V :=
    { Id := tx.nextId, UserId := billingTX.UserID, Amount := amount.baseUnits,
      Currency := amount.currency.symbol, Description := billingTX.Description,
      Source := billingTX.Source, Status := billingTX.Status, TxType := billingTX.TxType,
      Metadata := handleMetaDataZeroValue billingTX.Metadata,
      Timestamp := billingTX.Timestamp }
  (tx.nextId, { tx with transactions := tx.transactions ++ [row], nextId := tx.nextId + 1 })

/-- The loop `for userID, update := range balances` of source `tryInsert`. -/
def updateBalances {V : Type} (tx : DB V) (balances : List (UUID × balanceUpdate)) :
    Except BillingErr (DB V) :=
  match balances with
  | [] => .ok tx
  | (userID, update) :: rest =>
    match updateBalance tx userID update.OldBalance update.NewBalance with
    | .error e => .error e
    | .ok tx1 => updateBalances tx1 rest

/-- The creation of the rows of the transactions in source `tryInsert`, the
primary one first: the ids collected so far and the database. -/
def createTransactions {V : Type} (tx : DB V) (txs : List (Transaction V)) (txIDs : List Int) :
    List Int × DB V :=
  match txs with
  | [] => (txIDs, tx)
  | billingTX :: rest =>
    match createTransaction tx billingTX with
    | (txID, tx1) => createTransactions tx1 rest (txIDs ++ [txID])

/-- Source `tryInsert`. Between the reads of the balances and the database
transaction other writers may commit: `others` is what they do to the database
in that time (the identity when there is no concurrent writer). A failing
database transaction is rolled back, which leaves the database as the other
writers left it. -/
def tryInsert {V : Type} (db : DB V) (others : DB V → DB V) (primaryTx : Transaction V)
    (supplementalTxs : List (Transaction V)) : Except BillingErr (List Int) × DB V :=
  match adjustBalances db (primaryTx :: supplementalTxs) [] with
  | .error e => (.error e, db)
  | .ok balances =>
    let db1 := others db
    match updateBalances db1 balances with
    | .error e => (.error e, db1)
    | .ok tx1 =>
      match createTransactions tx1 (primaryTx :: supplementalTxs) [] with
      | (txIDs, tx2) => (.ok txIDs, tx2)

/-- The loop `for retryCount := 0; retryCount < 5; retryCount++` of source
`Insert`, with `remaining` iterations to go. -/
def insertRetry {V : Type} (remaining retryCount : Nat) (db : DB V) (others : Nat → DB V → DB V)
    (primaryTx : Transaction V) (supplementalTxs : List (Transaction V)) :
    Except BillingErr (List Int) × DB V :=
  match remaining with
  | 0 => (.error .retriesExhausted, db)
  | n + 1 =>
    match tryInsert db (others retryCount) primaryTx supplementalTxs with
    | (.ok txIDs, db1) => (.ok txIDs, db1)
    | (.error err, db1) =>
      if IsConstraintViolation err then
        insertRetry n (retryCount + 1) db1 others primaryTx supplementalTxs
      else (.error err, db1)

/-- The constant `supplementalTxLimit` of source `Insert`. -/
def supplementalTxLimit : Nat := 5

/-- Source `Insert`; `others n` is what concurrent writers do during attempt
`n`. -/
def Insert {V : Type} (db : DB V) (others : Nat → DB V → DB V) (primaryTx : Transaction V)
    (supplementalTxs : List (Transaction V)) : Except BillingErr (List Int) × DB V :=
  if supplementalTxs.length > supplementalTxLimit then (.error .tooManySupplementalTxs, db)
  else insertRetry 5 0 db others primaryTx supplementalTxs

/-- Source `UpdateMetadata`: reads the metadata of the row with the id, merges,
and writes the result to that row. -/
def UpdateMetadata {V : Type} (db : DB V) (txID : Int) (newMetadata : Bytes V) :
    Option BillingErr × DB V :=
  match db.transactions.find? (fun row => decide (row.Id = txID)) with
  | none => (some .noRows, db)
  | some dbxTX =>
    match updateMetadata dbxTX.Metadata newMetadata with
    | .error e => (some e, db)
    | .ok updatedMetadata =>
      let rows := db.transactions.map
        (fun row => if row.Id = txID then { row with Metadata := updatedMetadata } else row)
      (none, { db with transactions := rows })

/-! ## Notions of the specification -/

/-- The amount of a transaction in micro-dollars, truncated towards zero: a
mathematical integer, whatever its size. -/
def truncatedMicro (amount : Amount) : Int :=
  if amount.currency.decimalPlaces ≤ 6 then
    amount.baseUnits * 10 ^ (6 - amount.currency.decimalPlaces)
  else Int.tdiv amount.baseUnits (10 ^ (amount.currency.decimalPlaces - 6))

/-- The net balance delta of a user over a list of transactions: the sum of
the amounts, each truncated to micro-dollars, of the transactions of that
user. -/
def netDelta {V : Type} (userID : UUID) (txs : List (Transaction V)) : Int :=
  match txs with
  | [] => 0
  | tx :: rest =>
    (if tx.UserID = userID then truncatedMicro tx.Amount else 0) + netDelta userID rest

/-- The current balance of a user in micro-dollars: the balance of the user's
row, zero when the user has no row. -/
def currentBalance {V : Type} (db : DB V) (userID : UUID) : Int :=
  (mapGet db.balances userID).getD 0

/-- What holds of the map `balances` of source `tryInsert` after the calls of
`adjustBalance` for the transactions `done`: every user of `done` has an entry,
and the entry of a user holds the balance read from the database and that
balance plus the net delta of the user over `done`, which is not negative and
is a signed 64-bit integer. -/
def BalancesInv {V : Type} (db : DB V) (balances : List (UUID × balanceUpdate))
    (done : List (Transaction V)) : Prop :=
  (balances.map Prod.fst).Nodup ∧
  (∀ tx ∈ done, ∃ b, mapGet balances tx.UserID = some b) ∧
  (∀ u b, mapGet balances u = some b →
    b.OldBalance = GetBalance db u ∧
    b.NewBalance = ⟨currentBalance db u + netDelta u done, USDollarsMicro⟩ ∧
    0 ≤ currentBalance db u + netDelta u done ∧
    currentBalance db u + netDelta u done ≤ maxInt64)

/-! ## Sample data -/

/-- The tenant, or user, whose identifier is the bytes 1, 2, ..., 16. -/
def sampleID : UUID := ⟨[1, 2, 3, 4, 5, 6, 7, 8, 9, 10, 11, 12, 13, 14, 15, 16], rfl⟩

/-- A transaction of the sample user over a number of micro-dollars. -/
def sampleTx (microDollars : Int) : Transaction Int :=
  { UserID := sampleID, Amount := ⟨microDollars, USDollarsMicro⟩, Description := "",
    Source := "", Status := "", TxType := "", Metadata := none, Timestamp := 0 }

/-- A database in which the sample user has a balance of 50 and there is no
transaction. -/
def sampleDB : DB Int := { balances := [(sampleID, 50)], transactions := [], nextId := 1 }

/-- A transaction of the sample user over a number of cents, in US dollars
with two decimal places. -/
def sampleCentsTx (cents : Int) : Transaction Int :=
  { UserID := sampleID, Amount := ⟨cents, USDollars⟩, Description := "",
    Source := "", Status := "", TxType := "", Metadata := none, Timestamp := 0 }

/-- A database in which the sample user has the given balance and there is no
transaction. -/
def sampleBalanceDB (balance : Int) : DB Int :=
  { balances := [(sampleID, balance)], transactions := [], nextId := 1 }

/-- A tenant whose identifier is seven zero bytes followed by the nine bytes of
the text `bandwidth`. -/
def tenantBandwidth : UUID :=
  ⟨[0, 0, 0, 0, 0, 0, 0, 98, 97, 110, 100, 119, 105, 100, 116, 104], rfl⟩

/-- A tenant whose identifier is eight zero bytes followed by the eight bytes
of the text `:segment`. -/
def tenantSegment : UUID :=
  ⟨[0, 0, 0, 0, 0, 0, 0, 0, 58, 115, 101, 103, 109, 101, 110, 116], rfl⟩

/-- The value that a JSON object gives to a key, as it is written: the value
of the last member with that key (the only one, in an object without duplicate
keys). -/
def objectValue {V : Type} (members : List (Key × Member V)) (key : Key) : Option V :=
  (mapGet members.reverse key).map Member.written

/-- The value that a JSON object gives to a key, as the encoder writes it
after decoding; `none` also when the decoder rejects the value. -/
def reencodedValue {V : Type} (members : List (Key × Member V)) (key : Key) : Option V :=
  (mapGet members.reverse key).bind Member.reencoded

/-- Calls of `InsertProjectBandwidthUsage` for one tenant and one timestamp,
one after the other, each with its value and its time to live: the results
`inserted` of the calls and the cache after the last one. -/
def insertCalls (cache : Redis) (projectID : UUID) (now : Time) (calls : List (Int × Int)) :
    List Bool × Redis :=
  match calls with
  | [] => ([], cache)
  | (value, ttl) :: rest =>
    match InsertProjectBandwidthUsage cache projectID value ttl now with
    | ((inserted, _), cache1) =>
      match insertCalls cache1 projectID now rest with
      | (results, cache2) => (inserted :: results, cache2)

/-- Calls of `UpdateProjectBandwidthUsage` for one tenant and one timestamp,
one after the other, each with its increment and its time to live: the cache
after the last one. -/
def updateCalls (cache : Redis) (projectID : UUID) (now : Time) (calls : List (Int × Int)) :
    Redis :=
  match calls with
  | [] => cache
  | (increment, ttl) :: rest =>
    updateCalls (UpdateProjectBandwidthUsage cache projectID increment ttl now).2 projectID now
      rest

/-- A transaction row of the sample user, of id 1, with the given metadata
document. -/
def sampleRow (metadata : Bytes Int) : BillingTransaction Int :=
  { Id := 1, UserId := sampleID, Amount := 50, Currency := "USDMicro", Description := "",
    Source := "", Status := "", TxType := "", Metadata := metadata, Timestamp := 0 }

/-- A database with one transaction row, of id 1, with the given metadata
document. -/
def sampleLedgerWith (metadata : Bytes Int) : DB Int :=
  { balances := [(sampleID, 50)], transactions := [sampleRow metadata], nextId := 2 }

/-- A database with one transaction row, of id 1, whose metadata document is
`{"a":1}` (`a` is the byte 97). -/
def sampleLedger : DB Int := sampleLedgerWith (some (.object [([97], .decodes 1 1)]))

/-- The member value 9007199254740993, which is 2^53 + 1: a `float64` does not
hold it, the decoder rounds it to 2^53 and the encoder writes
9007199254740992. -/
def roundedNumber : Member Int := .decodes 9007199254740993 9007199254740992

/-- The member value `1e400`, a number outside the range of `float64`: the
decoder rejects it. -/
def hugeNumber : Member Int := .fails (10 ^ 400)

/-! ## The retry loop of `Insert`, for any attempt -/

/-- The loop `for retryCount := 0; retryCount < 5; retryCount++` of source
`Insert`, with `remaining` iterations to go, where the call of `tryInsert` is a
parameter: `attempt n s` is what attempt number `n` returns on the state `s` of
the store, with the state it leaves. -/
def retryLoop {σ : Type} (remaining retryCount : Nat)
    (attempt : Nat → σ → Except BillingErr (List Int) × σ) (s : σ) :
    Except BillingErr (List Int) × σ :=
  match remaining with
  | 0 => (.error .retriesExhausted, s)
  | n + 1 =>
    match attempt retryCount s with
    | (.ok txIDs, s1) => (.ok txIDs, s1)
    | (.error err, s1) =>
      if IsConstraintViolation err then retryLoop n (retryCount + 1) attempt s1
      else (.error err, s1)

/-- Source `Insert`, where the call of `tryInsert` is a parameter. -/
def InsertWith {σ V : Type} (attempt : Nat → σ → Except BillingErr (List Int) × σ) (s : σ)
    (supplementalTxs : List (Transaction V)) : Except BillingErr (List Int) × σ :=
  if supplementalTxs.length > supplementalTxLimit then (.error .tooManySupplementalTxs, s)
  else retryLoop 5 0 attempt s

/-- The state of the store before attempt number `n`, when the attempts
0, 1, ..., `n - 1` are made one after the other from the state `s`. -/
def stateBefore {σ : Type} (attempt : Nat → σ → Except BillingErr (List Int) × σ) (s : σ) :
    Nat → σ
  | 0 => s
  | n + 1 => (attempt n (stateBefore attempt s n)).2

/-- The outcome of attempt number `n` in that run of attempts. -/
def outcomeOf {σ : Type} (attempt : Nat → σ → Except BillingErr (List Int) × σ) (s : σ)
    (n : Nat) : Except BillingErr (List Int) :=
  (attempt n (stateBefore attempt s n)).1

/-- An attempt on a store that only counts the attempts made: the first two
attempts fail with a constraint violation and every later one succeeds with
the ids 7 and 8. -/
def countingAttempt (n : Nat) (made : Nat) : Except BillingErr (List Int) × Nat :=
  if n < 2 then (.error .constraintViolation, made + 1) else (.ok [7, 8], made + 1)

/-! # Properties -/

/-! ## Association lists -/

section GoMapLemmas

variable {κ α : Type} [DecidableEq κ]

theorem mapGet_mapSet_self (m : List (κ × α)) (k : κ) (v : α) :
    mapGet (mapSet m k v) k = some v := by
  induction m with
  | nil => simp [mapSet, mapGet]
  | cons hd tl ih =>
    obtain ⟨k', v'⟩ := hd
    by_cases h : k' = k
    · simp [mapSet, mapGet, h]
    · simp [mapSet, mapGet, h, ih]

theorem mapGet_mapSet_ne (m : List (κ × α)) (k k' : κ) (v : α) (hne : k' ≠ k) :
    mapGet (mapSet m k v) k' = mapGet m k' := by
  induction m with
  | nil =>
    have h : ¬ k = k' := fun h => hne h.symm
    simp [mapSet, mapGet, h]
  | cons hd tl ih =>
    obtain ⟨k1, v1⟩ := hd
    by_cases h : k1 = k
    · subst h
      have h' : ¬ k1 = k' := fun h => hne h.symm
      simp [mapSet, mapGet, h']
    · by_cases h2 : k1 = k'
      · subst h2
        simp [mapSet, mapGet, h]
      · simp [mapSet, mapGet, h, h2, ih]

theorem mapGet_mapDel_self (m : List (κ × α)) (k : κ) : mapGet (mapDel m k) k = none := by
  induction m with
  | nil => simp [mapDel, mapGet]
  | cons hd tl ih =>
    obtain ⟨k', v'⟩ := hd
    by_cases h : k' = k
    · simpa [mapDel, List.filter, h] using ih
    · simpa [mapDel, List.filter, h, mapGet] using ih

theorem mapGet_mapDel_ne (m : List (κ × α)) (k k' : κ) (hne : k' ≠ k) :
    mapGet (mapDel m k) k' = mapGet m k' := by
  induction m with
  | nil => simp [mapDel, mapGet]
  | cons hd tl ih =>
    obtain ⟨k1, v1⟩ := hd
    by_cases h : k1 = k
    · subst h
      have h' : ¬ k1 = k' := fun h => hne h.symm
      simpa [mapDel, List.filter, mapGet, h'] using ih
    · by_cases h2 : k1 = k'
      · subst h2
        simp [mapDel, List.filter, h, mapGet]
      · simpa [mapDel, List.filter, h, mapGet, h2] using ih

end GoMapLemmas

/-! ## Key encoding -/

/-- C9. For a 16-byte tenant identifier and a timestamp whose month is 1..12
and whose day of the month is 1..31, the storage key is the 16 bytes of the
identifier, the segment key is these bytes followed by the 8 bytes of
`:segment`, and the bandwidth key is these bytes, then the byte of the month,
then the byte of the day, then the 10 bytes of `:bandwidth`, 28 bytes in all.
-/
theorem key_encoding (p : UUID) (t : Time) (hm : 1 ≤ t.month ∧ t.month ≤ 12)
    (hd : 1 ≤ t.day ∧ t.day ≤ 31) :
    (createStorageProjectIDKey p = p.bytes ∧ (createStorageProjectIDKey p).length = 16) ∧
    (createSegmentProjectIDKey p = p.bytes ++ ":segment".toList.map Char.toNat ∧
      (":segment".toList.map Char.toNat).length = 8 ∧
      (createSegmentProjectIDKey p).length = 24) ∧
    (createBandwidthProjectIDKey p t
        = p.bytes ++ [t.month] ++ [t.day] ++ ":bandwidth".toList.map Char.toNat ∧
      (":bandwidth".toList.map Char.toNat).length = 10 ∧
      (createBandwidthProjectIDKey p t).length = 28) := by
  have hmonth : stringOfByte (byte t.month) = [t.month] := by
    have h : t.month % 256 = t.month := by omega
    have h' : t.month < 128 := by omega
    simp [stringOfByte, byte, h, h']
  have hday : stringOfByte (byte t.day) = [t.day] := by
    have h : t.day % 256 = t.day := by omega
    have h' : t.day < 128 := by omega
    simp [stringOfByte, byte, h, h']
  have hseg : ":segment".toList.map Char.toNat = segmentSuffix := by decide
  have hbw : ":bandwidth".toList.map Char.toNat = bandwidthSuffix := by decide
  refine ⟨⟨rfl, p.len⟩, ⟨?_, by decide, ?_⟩, ⟨?_, by decide, ?_⟩⟩
  · rw [hseg]; rfl
  · simp [createSegmentProjectIDKey, segmentSuffix, p.len]
  · rw [hbw]
    simp [createBandwidthProjectIDKey, Time.Date, hmonth, hday]
  · simp [createBandwidthProjectIDKey, Time.Date, bandwidthSuffix, p.len, hmonth, hday]

/-- The statement `key_encoding` at the tenant 1, 2, ..., 16 and the 4th of
March. -/
theorem key_encoding_witness :
    createBandwidthProjectIDKey ⟨[1, 2, 3, 4, 5, 6, 7, 8, 9, 10, 11, 12, 13, 14, 15, 16], rfl⟩
        ⟨2024, 3, 4⟩
      = [1, 2, 3, 4, 5, 6, 7, 8, 9, 10, 11, 12, 13, 14, 15, 16, 3, 4,
          58, 98, 97, 110, 100, 119, 105, 100, 116, 104] :=
  (key_encoding ⟨[1, 2, 3, 4, 5, 6, 7, 8, 9, 10, 11, 12, 13, 14, 15, 16], rfl⟩ ⟨2024, 3, 4⟩
    (by decide) (by decide)).2.2.1

/-! ## Admission control: `AddProject...UsageUpToLimit` -/

theorem Redis.get_mapSet_self (r : Redis) (key : Key) (e : Entry) :
    Redis.get (mapSet r key e) key = some e.val := by
  simp [Redis.get, mapGet_mapSet_self]

/-- Command `INCRBY` on a counter that holds `u`, or is absent while `u = 0`. -/
theorem Redis.incrby_counter (r : Redis) (key : Key) (u d : Int)
    (hu : r.get key = some (Val.int u) ∨ (r.get key = none ∧ u = 0))
    (hu64 : inInt64 u) (hfit : inInt64 (u + d)) :
    ∃ r1, r.incrby key d = .ok (u + d, r1) ∧ r1.get key = some (Val.int (u + d)) := by
  rcases hu with h | ⟨h, h0⟩
  · unfold Redis.get at h
    cases hget : mapGet r key with
    | none => simp [hget] at h
    | some e =>
      obtain ⟨val, ttl⟩ := e
      simp [hget] at h
      subst h
      refine ⟨mapSet r key ⟨Val.int (u + d), ttl⟩, ?_, Redis.get_mapSet_self _ _ _⟩
      simp [Redis.incrby, hget, hu64, hfit]
  · subst h0
    unfold Redis.get at h
    cases hget : mapGet r key with
    | some e => simp [hget] at h
    | none =>
      refine ⟨mapSet r key ⟨Val.int (0 + d), none⟩, ?_, Redis.get_mapSet_self _ _ _⟩
      have hfit0 : inInt64 d := by simpa using hfit
      simp [Redis.incrby, hget, hfit0]

/-- Command `DECRBY` on a counter that holds `n`. -/
theorem Redis.decrby_counter (r : Redis) (key : Key) (n d : Int)
    (hn : r.get key = some (Val.int n)) (hn64 : inInt64 n) (hfit : inInt64 (n - d))
    (hd : d ≠ minInt64) :
    ∃ r1, r.decrby key d = .ok (n - d, r1) ∧ r1.get key = some (Val.int (n - d)) := by
  unfold Redis.get at hn
  cases hget : mapGet r key with
  | none => simp [hget] at hn
  | some e =>
    obtain ⟨val, ttl⟩ := e
    simp [hget] at hn
    subst hn
    refine ⟨mapSet r key ⟨Val.int (n - d), ttl⟩, ?_, Redis.get_mapSet_self _ _ _⟩
    simp [Redis.decrby, hget, hn64, hfit, hd]

theorem getInt64_of_get (r : Redis) (key : Key) (n : Int) (h : r.get key = some (Val.int n))
    (hn : inInt64 n) : getInt64 r key = .ok n := by
  simp [getInt64, h, parseInt, hn]

/-- C1, as amended. With the counter of a tenant at `u` (an absent counter
counting as 0) and `u + d` a signed 64-bit integer: when `u + d ≤ L` each of
`AddProjectSegmentUsageUpToLimit` and `AddProjectStorageUsageUpToLimit` returns
no error and the counter, as `GetProjectSegmentUsage` / `GetProjectStorageUsage`
reads it, is `u + d`; when `u + d > L` and `d` is not -2^63, the call fails
with `ProjectLimitExceeded` and the counter reads `u` again. -/
theorem AddProjectUsageUpToLimit_spec (cache : Redis) (p : UUID) (u d L : Int)
    (hu64 : inInt64 u) (hfit : inInt64 (u + d)) :
    ((cache.get (createSegmentProjectIDKey p) = some (Val.int u) ∨
        (cache.get (createSegmentProjectIDKey p) = none ∧ u = 0)) →
      (u + d ≤ L →
        (AddProjectSegmentUsageUpToLimit cache p d L).1 = none ∧
        GetProjectSegmentUsage (AddProjectSegmentUsageUpToLimit cache p d L).2 p
          = .ok (u + d)) ∧
      (u + d > L → d ≠ minInt64 →
        (AddProjectSegmentUsageUpToLimit cache p d L).1 = some Err.ProjectLimitExceeded ∧
        GetProjectSegmentUsage (AddProjectSegmentUsageUpToLimit cache p d L).2 p = .ok u)) ∧
    ((cache.get (createStorageProjectIDKey p) = some (Val.int u) ∨
        (cache.get (createStorageProjectIDKey p) = none ∧ u = 0)) →
      (u + d ≤ L →
        (AddProjectStorageUsageUpToLimit cache p d L).1 = none ∧
        GetProjectStorageUsage (AddProjectStorageUsageUpToLimit cache p d L).2 p
          = .ok (u + d)) ∧
      (u + d > L → d ≠ minInt64 →
        (AddProjectStorageUsageUpToLimit cache p d L).1 = some Err.ProjectLimitExceeded ∧
        GetProjectStorageUsage (AddProjectStorageUsageUpToLimit cache p d L).2 p = .ok u)) := by
  have hback : u + d - d = u := by omega
  constructor
  · intro hu
    obtain ⟨r1, hincr, hget1⟩ := Redis.incrby_counter cache _ u d hu hu64 hfit
    constructor
    · intro hle
      have hnot : ¬ (u + d > L) := by omega
      simp only [AddProjectSegmentUsageUpToLimit, hincr, hnot, if_false]
      exact ⟨trivial, getInt64_of_get _ _ _ hget1 hfit⟩
    · intro hgt hd
      obtain ⟨r2, hdecr, hget2⟩ :=
        Redis.decrby_counter r1 _ (u + d) d hget1 hfit (by rw [hback]; exact hu64) hd
      rw [hback] at hdecr hget2
      simp only [AddProjectSegmentUsageUpToLimit, hincr, hgt, if_true, hdecr]
      exact ⟨trivial, getInt64_of_get _ _ _ hget2 hu64⟩
  · intro hu
    have hkey : createStorageProjectIDKey p = p.bytes := rfl
    rw [hkey] at hu
    obtain ⟨r1, hincr, hget1⟩ := Redis.incrby_counter cache _ u d hu hu64 hfit
    constructor
    · intro hle
      have hnot : ¬ (u + d > L) := by omega
      simp only [AddProjectStorageUsageUpToLimit, hincr, hnot, if_false]
      exact ⟨trivial, getInt64_of_get _ _ _ hget1 hfit⟩
    · intro hgt hd
      obtain ⟨r2, hdecr, hget2⟩ :=
        Redis.decrby_counter r1 _ (u + d) d hget1 hfit (by rw [hback]; exact hu64) hd
      rw [hback] at hdecr hget2
      simp only [AddProjectStorageUsageUpToLimit, hincr, hgt, if_true, hdecr]
      exact ⟨trivial, getInt64_of_get _ _ _ hget2 hu64⟩

/-- The statement `AddProjectUsageUpToLimit_spec` on the empty cache, for an
increment of 7 and a limit of 5: both calls fail and both counters read 0. -/
theorem AddProjectUsageUpToLimit_spec_witness :
    ((AddProjectSegmentUsageUpToLimit []
          ⟨[1, 2, 3, 4, 5, 6, 7, 8, 9, 10, 11, 12, 13, 14, 15, 16], rfl⟩ 7 5).1
        = some Err.ProjectLimitExceeded ∧
      GetProjectSegmentUsage
          (AddProjectSegmentUsageUpToLimit []
            ⟨[1, 2, 3, 4, 5, 6, 7, 8, 9, 10, 11, 12, 13, 14, 15, 16], rfl⟩ 7 5).2
          ⟨[1, 2, 3, 4, 5, 6, 7, 8, 9, 10, 11, 12, 13, 14, 15, 16], rfl⟩ = .ok 0) ∧
    ((AddProjectStorageUsageUpToLimit []
          ⟨[1, 2, 3, 4, 5, 6, 7, 8, 9, 10, 11, 12, 13, 14, 15, 16], rfl⟩ 7 5).1
        = some Err.ProjectLimitExceeded ∧
      GetProjectStorageUsage
          (AddProjectStorageUsageUpToLimit []
            ⟨[1, 2, 3, 4, 5, 6, 7, 8, 9, 10, 11, 12, 13, 14, 15, 16], rfl⟩ 7 5).2
          ⟨[1, 2, 3, 4, 5, 6, 7, 8, 9, 10, 11, 12, 13, 14, 15, 16], rfl⟩ = .ok 0) :=
  ⟨((AddProjectUsageUpToLimit_spec []
        ⟨[1, 2, 3, 4, 5, 6, 7, 8, 9, 10, 11, 12, 13, 14, 15, 16], rfl⟩ 0 7 5
        (by decide) (by decide)).1 (Or.inr ⟨rfl, rfl⟩)).2 (by decide) (by decide),
   ((AddProjectUsageUpToLimit_spec []
        ⟨[1, 2, 3, 4, 5, 6, 7, 8, 9, 10, 11, 12, 13, 14, 15, 16], rfl⟩ 0 7 5
        (by decide) (by decide)).2 (Or.inr ⟨rfl, rfl⟩)).2 (by decide) (by decide)⟩

/-- C1, as stated, fails for the increment -2^63. The counter of the sample
tenant holds 5, the increment and the limit are both -2^63: the sum 5 - 2^63 is
a signed 64-bit integer and is above the limit, the increment goes through, and
the rollback `DECRBY` of -2^63 is rejected by the server. Each of the two calls
returns `SystemOrNetError`, not `ProjectLimitExceeded`, and the counter stays at
5 - 2^63. -/
theorem AddProjectUsageUpToLimit_min_decrement_counterexample :
    (inInt64 (5 + minInt64) ∧ 5 + minInt64 > minInt64) ∧
    ((AddProjectSegmentUsageUpToLimit
          [(createSegmentProjectIDKey sampleID, ⟨Val.int 5, none⟩)] sampleID minInt64
          minInt64).1 = some Err.SystemOrNetError ∧
      GetProjectSegmentUsage
          (AddProjectSegmentUsageUpToLimit
            [(createSegmentProjectIDKey sampleID, ⟨Val.int 5, none⟩)] sampleID minInt64
            minInt64).2 sampleID = .ok (-9223372036854775803)) ∧
    ((AddProjectStorageUsageUpToLimit
          [(createStorageProjectIDKey sampleID, ⟨Val.int 5, none⟩)] sampleID minInt64
          minInt64).1 = some Err.SystemOrNetError ∧
      GetProjectStorageUsage
          (AddProjectStorageUsageUpToLimit
            [(createStorageProjectIDKey sampleID, ⟨Val.int 5, none⟩)] sampleID minInt64
            minInt64).2 sampleID = .ok (-9223372036854775803)) := by
  refine ⟨by decide, ⟨by decide, rfl⟩, ⟨by decide, rfl⟩⟩

/-! ## The billing ledger: `Insert` -/

section GoMapKeys

variable {κ α : Type} [DecidableEq κ]

theorem mapGet_eq_none_of_not_mem (m : List (κ × α)) (k : κ) (h : k ∉ m.map Prod.fst) :
    mapGet m k = none := by
  induction m with
  | nil => rfl
  | cons hd tl ih =>
    obtain ⟨k', v'⟩ := hd
    simp only [List.map_cons, List.mem_cons, not_or] at h
    have h1 : ¬ k' = k := fun e => h.1 e.symm
    simp [mapGet, h1, ih h.2]

theorem mem_keys_of_mapGet (m : List (κ × α)) (k : κ) (v : α) (h : mapGet m k = some v) :
    k ∈ m.map Prod.fst := by
  by_contra hk
  rw [mapGet_eq_none_of_not_mem m k hk] at h
  cases h

theorem mem_keys_mapSet (m : List (κ × α)) (k k' : κ) (v : α) :
    k' ∈ (mapSet m k v).map Prod.fst ↔ k' = k ∨ k' ∈ m.map Prod.fst := by
  induction m with
  | nil => simp [mapSet]
  | cons hd tl ih =>
    obtain ⟨k1, v1⟩ := hd
    by_cases h : k1 = k
    · subst h
      simp [mapSet]
    · simp only [mapSet, h, if_false, List.map_cons, List.mem_cons, ih]
      tauto

theorem nodup_keys_mapSet (m : List (κ × α)) (k : κ) (v : α) (h : (m.map Prod.fst).Nodup) :
    ((mapSet m k v).map Prod.fst).Nodup := by
  induction m with
  | nil => simp [mapSet]
  | cons hd tl ih =>
    obtain ⟨k1, v1⟩ := hd
    simp only [List.map_cons, List.nodup_cons] at h
    by_cases hk : k1 = k
    · subst hk
      simpa [mapSet] using h
    · simp only [mapSet, hk, if_false, List.map_cons, List.nodup_cons]
      refine ⟨?_, ih h.2⟩
      rw [mem_keys_mapSet]
      rintro (e | e)
      · exact hk e
      · exact h.1 e

end GoMapKeys

section Ledger

variable {V : Type}

theorem wrapInt64_of_inInt64 (n : Int) (h : inInt64 n) : wrapInt64 n = n := by
  unfold inInt64 minInt64 maxInt64 at h
  unfold wrapInt64
  omega

theorem bigIntInt64_of_inInt64 (n : Int) (h : inInt64 n) : bigIntInt64 n = n := by
  unfold inInt64 minInt64 maxInt64 at h
  unfold bigIntInt64 wrapInt64
  simp only
  split <;> omega

/-- An `int64` sum that does not come out negative is the mathematical sum,
when that sum is not below -2^63 and below 2^64. -/
theorem inInt64_of_wrapInt64_nonneg (n : Int) (h1 : minInt64 ≤ n) (h2 : n ≤ 2 * maxInt64 + 1)
    (h : 0 ≤ wrapInt64 n) : inInt64 n := by
  unfold inInt64
  unfold minInt64 maxInt64 at *
  unfold wrapInt64 at h
  omega

/-- The closure `convertToUSDMicro` gives the truncated amount when that is a
signed 64-bit integer. -/
theorem convertToUSDMicro_baseUnits (a : Amount) (h : inInt64 (truncatedMicro a)) :
    (convertToUSDMicro a).baseUnits = truncatedMicro a := by
  have hdp : USDollarsMicro.decimalPlaces = 6 := rfl
  unfold convertToUSDMicro
  unfold truncatedMicro at h ⊢
  rw [hdp]
  by_cases hle : a.currency.decimalPlaces ≤ 6
  · simp only [hle, if_true] at h ⊢
    exact bigIntInt64_of_inInt64 _ h
  · simp only [hle, if_false] at h ⊢
    exact bigIntInt64_of_inInt64 _ h

theorem netDelta_append (u : UUID) (xs ys : List (Transaction V)) :
    netDelta u (xs ++ ys) = netDelta u xs + netDelta u ys := by
  induction xs with
  | nil => simp [netDelta]
  | cons x xs ih => simp [netDelta, ih, add_assoc]

theorem netDelta_eq_zero (u : UUID) (txs : List (Transaction V))
    (h : ∀ tx ∈ txs, tx.UserID ≠ u) : netDelta u txs = 0 := by
  induction txs with
  | nil => rfl
  | cons x xs ih =>
    have hx : ¬ x.UserID = u := h x (List.mem_cons_self _ _)
    have hxs : ∀ tx ∈ xs, tx.UserID ≠ u := fun tx htx => h tx (List.mem_cons_of_mem _ htx)
    simp [netDelta, hx, ih hxs]

theorem netDelta_snoc_self (done : List (Transaction V)) (tx : Transaction V) :
    netDelta tx.UserID (done ++ [tx])
      = netDelta tx.UserID done + truncatedMicro tx.Amount := by
  simp [netDelta_append, netDelta]

theorem netDelta_snoc_ne (u : UUID) (done : List (Transaction V)) (tx : Transaction V)
    (h : u ≠ tx.UserID) : netDelta u (done ++ [tx]) = netDelta u done := by
  have h' : ¬ tx.UserID = u := fun e => h e.symm
  simp [netDelta_append, netDelta, h']

theorem convertToUSDMicro_currency (a : Amount) :
    (convertToUSDMicro a).currency = USDollarsMicro := by
  unfold convertToUSDMicro
  split <;> rfl

theorem GetBalance_eq (db : DB V) (u : UUID) :
    GetBalance db u = ⟨currentBalance db u, USDollarsMicro⟩ := by
  unfold currentBalance GetBalance
  cases mapGet db.balances u <;> rfl

/-- A user without an entry in the map has no transaction among the ones
done. -/
theorem untouched_of_mapGet_none (db : DB V) (m : List (UUID × balanceUpdate))
    (done : List (Transaction V)) (u : UUID) (hinv : BalancesInv db m done)
    (hget : mapGet m u = none) : ∀ t ∈ done, t.UserID ≠ u := by
  intro t ht e
  obtain ⟨b, hb⟩ := hinv.2.1 t ht
  rw [e, hget] at hb
  cases hb

/-- One call of `adjustBalance` for a transaction whose truncated amount is a
signed 64-bit integer: it adds the amount to the running balance of the user
as an `int64`, fails with `InsufficientFunds` when that sum comes out negative,
and otherwise extends the map. -/
theorem adjustBalance_step (db : DB V) (m : List (UUID × balanceUpdate))
    (done : List (Transaction V)) (tx : Transaction V) (hinv : BalancesInv db m done)
    (hfit : inInt64 (truncatedMicro tx.Amount)) :
    (wrapInt64 (currentBalance db tx.UserID + netDelta tx.UserID (done ++ [tx])) < 0 ∧
      adjustBalance db m tx.UserID tx.Amount = .error .InsufficientFunds) ∨
    (0 ≤ wrapInt64 (currentBalance db tx.UserID + netDelta tx.UserID (done ++ [tx])) ∧
      ∃ m', adjustBalance db m tx.UserID tx.Amount = .ok m' ∧
        (inInt64 (currentBalance db tx.UserID + netDelta tx.UserID (done ++ [tx])) →
          BalancesInv db m' (done ++ [tx]))) := by
  have huntouched := untouched_of_mapGet_none db m done tx.UserID hinv
  obtain ⟨hnodup, htouched, hvals⟩ := hinv
  -- the entry that `adjustBalance` works on, and the map that holds it
  have hentry : ∃ m1 : List (UUID × balanceUpdate),
      (match mapGet m tx.UserID with
        | some balance => (balance, m)
        | none =>
          ((⟨GetBalance db tx.UserID, GetBalance db tx.UserID⟩ : balanceUpdate),
            mapSet m tx.UserID ⟨GetBalance db tx.UserID, GetBalance db tx.UserID⟩))
        = ((⟨GetBalance db tx.UserID,
              ⟨currentBalance db tx.UserID + netDelta tx.UserID done, USDollarsMicro⟩⟩ :
              balanceUpdate), m1) ∧
      (m1.map Prod.fst).Nodup ∧
      (∀ u, u ≠ tx.UserID → mapGet m1 u = mapGet m u) := by
    cases hget : mapGet m tx.UserID with
    | some b =>
      obtain ⟨hold, hnew, _⟩ := hvals _ _ hget
      refine ⟨m, ?_, hnodup, fun _ _ => rfl⟩
      obtain ⟨bo, bn⟩ := b
      simp only at hold hnew
      simp [hold, hnew]
    | none =>
      have hzero : netDelta tx.UserID done = 0 :=
        netDelta_eq_zero _ _ (huntouched hget)
      refine ⟨mapSet m tx.UserID ⟨GetBalance db tx.UserID, GetBalance db tx.UserID⟩, ?_,
        nodup_keys_mapSet _ _ _ hnodup, fun u hu => mapGet_mapSet_ne _ _ _ _ hu⟩
      rw [hzero, add_zero, ← GetBalance_eq]
  obtain ⟨m1, hm1, hnodup1, hframe1⟩ := hentry
  have hadd : currencyAdd
      (⟨currentBalance db tx.UserID + netDelta tx.UserID done, USDollarsMicro⟩ : Amount)
      (convertToUSDMicro tx.Amount)
      = some ⟨wrapInt64 (currentBalance db tx.UserID + netDelta tx.UserID (done ++ [tx])),
          USDollarsMicro⟩ := by
    simp [currencyAdd, convertToUSDMicro_currency, convertToUSDMicro_baseUnits _ hfit,
      netDelta_snoc_self, add_assoc]
  by_cases hneg :
      wrapInt64 (currentBalance db tx.UserID + netDelta tx.UserID (done ++ [tx])) < 0
  · left
    refine ⟨hneg, ?_⟩
    unfold adjustBalance
    simp only [hm1, hadd, Amount.IsNegative, hneg, decide_True, if_true]
  · right
    have hpos :
        0 ≤ wrapInt64 (currentBalance db tx.UserID + netDelta tx.UserID (done ++ [tx])) := by
      omega
    refine ⟨hpos, mapSet m1 tx.UserID ⟨GetBalance db tx.UserID,
      ⟨wrapInt64 (currentBalance db tx.UserID + netDelta tx.UserID (done ++ [tx])),
        USDollarsMicro⟩⟩,
      ?_, ?_⟩
    · unfold adjustBalance
      simp only [hm1, hadd, Amount.IsNegative, hneg, decide_False]
      simp
    · intro hS
      have hwrap := wrapInt64_of_inInt64 _ hS
      rw [hwrap] at hpos ⊢
      refine ⟨nodup_keys_mapSet _ _ _ hnodup1, ?_, ?_⟩
      · intro t ht
        by_cases ht' : t.UserID = tx.UserID
        · rw [ht']
          exact ⟨_, mapGet_mapSet_self _ _ _⟩
        · rw [mapGet_mapSet_ne _ _ _ _ ht', hframe1 _ ht']
          rcases List.mem_append.mp ht with h | h
          · exact htouched t h
          · simp only [List.mem_singleton] at h
            exact absurd (by rw [h]) ht'
      · intro u b hb
        by_cases hu : u = tx.UserID
        · subst hu
          rw [mapGet_mapSet_self] at hb
          cases hb
          exact ⟨rfl, rfl, hpos, hS.2⟩
        · rw [mapGet_mapSet_ne _ _ _ _ hu, hframe1 _ hu] at hb
          rw [netDelta_snoc_ne u done tx hu]
          exact hvals u b hb

/-- The mathematical running balance after a transaction is not below -2^63
and below 2^64, when the amount and the current balance are signed 64-bit
integers and the first transaction of the user does not take the balance below
-2^63. -/
theorem running_bounds (db : DB V) (m : List (UUID × balanceUpdate))
    (done : List (Transaction V)) (tx : Transaction V) (hinv : BalancesInv db m done)
    (hfit : inInt64 (truncatedMicro tx.Amount))
    (hcur : inInt64 (currentBalance db tx.UserID))
    (hfirst : (∀ t ∈ done, t.UserID ≠ tx.UserID) →
      minInt64 ≤ currentBalance db tx.UserID + truncatedMicro tx.Amount) :
    minInt64 ≤ currentBalance db tx.UserID + netDelta tx.UserID (done ++ [tx]) ∧
    currentBalance db tx.UserID + netDelta tx.UserID (done ++ [tx]) ≤ 2 * maxInt64 + 1 := by
  rw [netDelta_snoc_self]
  unfold inInt64 at hfit hcur
  cases hget : mapGet m tx.UserID with
  | some b =>
    obtain ⟨_, _, h0, hmax⟩ := hinv.2.2 _ _ hget
    unfold minInt64 maxInt64 at *
    omega
  | none =>
    have hun := untouched_of_mapGet_none db m done tx.UserID hinv hget
    have hzero := netDelta_eq_zero _ _ hun
    have hlow := hfirst hun
    rw [hzero]
    unfold minInt64 maxInt64 at *
    omega

end Ledger

section LedgerInsert

variable {V : Type}

/-- All the calls of `adjustBalance`, for amounts and current balances that
are signed 64-bit integers, when no user's first transaction takes the balance
below -2^63: they fail with `InsufficientFunds` or build the map of the old and
new balances. -/
theorem adjustBalances_result (db : DB V) (txs done : List (Transaction V))
    (m : List (UUID × balanceUpdate)) (hinv : BalancesInv db m done)
    (hfit : ∀ tx ∈ txs, inInt64 (truncatedMicro tx.Amount))
    (hcur : ∀ tx ∈ txs, inInt64 (currentBalance db tx.UserID))
    (hfirst : ∀ pre tx post, txs = pre ++ tx :: post →
      (∀ t ∈ done ++ pre, t.UserID ≠ tx.UserID) →
      minInt64 ≤ currentBalance db tx.UserID + truncatedMicro tx.Amount) :
    adjustBalances db txs m = .error .InsufficientFunds ∨
    ∃ m', adjustBalances db txs m = .ok m' ∧ BalancesInv db m' (done ++ txs) := by
  induction txs generalizing m done with
  | nil => exact Or.inr ⟨m, rfl, by simpa using hinv⟩
  | cons tx rest ih =>
    have hfit0 := hfit tx (List.mem_cons_self _ _)
    have hbounds := running_bounds db m done tx hinv hfit0 (hcur tx (List.mem_cons_self _ _))
      (fun h => hfirst [] tx rest rfl (by simpa using h))
    rcases adjustBalance_step db m done tx hinv hfit0 with ⟨_, herr⟩ | ⟨hpos, m1, hok, hinv1⟩
    · left
      simp [adjustBalances, herr]
    · have hS := inInt64_of_wrapInt64_nonneg _ hbounds.1 hbounds.2 hpos
      have h := ih (done ++ [tx]) m1 (hinv1 hS)
        (fun t ht => hfit t (List.mem_cons_of_mem _ ht))
        (fun t ht => hcur t (List.mem_cons_of_mem _ ht))
        (by
          intro pre t post e hne
          exact hfirst (tx :: pre) t post (by rw [e]; rfl) (by simpa using hne))
      simpa [adjustBalances, hok] using h

/-- All the calls of `adjustBalance` succeed when the amounts are signed
64-bit integers and no running balance goes below zero or above 2^63 - 1. -/
theorem adjustBalances_ok (db : DB V) (txs done : List (Transaction V))
    (m : List (UUID × balanceUpdate)) (hinv : BalancesInv db m done)
    (hfit : ∀ tx ∈ txs, inInt64 (truncatedMicro tx.Amount))
    (hrun : ∀ pre tx post, txs = pre ++ tx :: post →
      0 ≤ currentBalance db tx.UserID + netDelta tx.UserID (done ++ pre ++ [tx]) ∧
      currentBalance db tx.UserID + netDelta tx.UserID (done ++ pre ++ [tx]) ≤ maxInt64) :
    ∃ m', adjustBalances db txs m = .ok m' ∧ BalancesInv db m' (done ++ txs) := by
  induction txs generalizing m done with
  | nil => exact ⟨m, rfl, by simpa using hinv⟩
  | cons tx rest ih =>
    have hS : inInt64 (currentBalance db tx.UserID + netDelta tx.UserID (done ++ [tx])) := by
      have h := hrun [] tx rest rfl
      simp only [List.append_nil] at h
      unfold inInt64 minInt64
      omega
    rcases adjustBalance_step db m done tx hinv (hfit tx (List.mem_cons_self _ _)) with
      ⟨hneg, _⟩ | ⟨_, m1, hok, hinv1⟩
    · rw [wrapInt64_of_inInt64 _ hS] at hneg
      have h := hrun [] tx rest rfl
      simp only [List.append_nil] at h
      omega
    · have h := ih (done ++ [tx]) m1 (hinv1 hS)
        (fun t ht => hfit t (List.mem_cons_of_mem _ ht))
        (by
          intro pre t post e
          have h := hrun (tx :: pre) t post (by rw [e]; rfl)
          simpa using h)
      simpa [adjustBalances, hok] using h

/-- The loop over the map `balances` inside the database transaction, when the
balances of the database are still the ones that were read: every user of the
map gets the new balance, and nothing else changes. -/
theorem updateBalances_ok (tx : DB V) (m : List (UUID × balanceUpdate))
    (hnodup : (m.map Prod.fst).Nodup)
    (hold : ∀ p ∈ m, p.2.OldBalance.baseUnits = (mapGet tx.balances p.1).getD 0) :
    ∃ tx', updateBalances tx m = .ok tx' ∧
      tx'.transactions = tx.transactions ∧ tx'.nextId = tx.nextId ∧
      ∀ u, mapGet tx'.balances u =
        match mapGet m u with
        | some b => some b.NewBalance.baseUnits
        | none => mapGet tx.balances u := by
  induction m generalizing tx with
  | nil => exact ⟨tx, rfl, rfl, rfl, fun _ => rfl⟩
  | cons hd tl ih =>
    obtain ⟨u0, b0⟩ := hd
    simp only [List.map_cons, List.nodup_cons] at hnodup
    have h0 := hold (u0, b0) (List.mem_cons_self _ _)
    simp only at h0
    have hstep : updateBalance tx u0 b0.OldBalance b0.NewBalance
        = .ok { tx with balances := mapSet tx.balances u0 b0.NewBalance.baseUnits } := by
      unfold updateBalance
      cases hget : mapGet tx.balances u0 with
      | none => simp
      | some bal =>
        rw [hget] at h0
        simp only [Option.getD_some] at h0
        simp [h0]
    obtain ⟨tx', hrest, htxs, hid, hbal⟩ :=
      ih { tx with balances := mapSet tx.balances u0 b0.NewBalance.baseUnits } hnodup.2 (by
        intro p hp
        have hne : p.1 ≠ u0 := by
          intro e
          apply hnodup.1
          rw [← e]
          exact List.mem_map_of_mem Prod.fst hp
        simp only [mapGet_mapSet_ne _ _ _ _ hne]
        exact hold p (List.mem_cons_of_mem _ hp))
    refine ⟨tx', ?_, htxs, hid, ?_⟩
    · simp [updateBalances, hstep, hrest]
    · intro u
      rw [hbal u]
      by_cases hu : u0 = u
      · subst hu
        simp [mapGet, mapGet_eq_none_of_not_mem _ _ hnodup.1, mapGet_mapSet_self]
      · have hu' : u ≠ u0 := fun e => hu e.symm
        simp [mapGet, hu, mapGet_mapSet_ne _ _ _ _ hu']

theorem createTransactions_balances (tx : DB V) (txs : List (Transaction V)) (ids : List Int) :
    (createTransactions tx txs ids).2.balances = tx.balances := by
  induction txs generalizing tx ids with
  | nil => rfl
  | cons t rest ih =>
    simp only [createTransactions, createTransaction]
    rw [ih]

theorem BalancesInv_nil (db : DB V) : BalancesInv db [] ([] : List (Transaction V)) := by
  refine ⟨by simp, ?_, ?_⟩
  · intro tx htx
    cases htx
  · intro u b hb
    simp [mapGet] at hb

/-- An attempt of `tryInsert` without a concurrent writer, when the amounts
are signed 64-bit integers and no running balance goes below zero or above
2^63 - 1. -/
theorem tryInsert_ok (db : DB V) (primaryTx : Transaction V)
    (supplementalTxs : List (Transaction V))
    (hfit : ∀ tx ∈ primaryTx :: supplementalTxs, inInt64 (truncatedMicro tx.Amount))
    (hrun : ∀ pre tx post, primaryTx :: supplementalTxs = pre ++ tx :: post →
      0 ≤ currentBalance db tx.UserID + netDelta tx.UserID (pre ++ [tx]) ∧
      currentBalance db tx.UserID + netDelta tx.UserID (pre ++ [tx]) ≤ maxInt64) :
    ∃ txIDs db', tryInsert db (fun d => d) primaryTx supplementalTxs = (.ok txIDs, db') ∧
      ∀ tx ∈ primaryTx :: supplementalTxs,
        mapGet db'.balances tx.UserID
          = some (currentBalance db tx.UserID
              + netDelta tx.UserID (primaryTx :: supplementalTxs)) := by
  obtain ⟨m, hadj, hnodup, htouched, hvals⟩ :=
    adjustBalances_ok db (primaryTx :: supplementalTxs) [] [] (BalancesInv_nil db) hfit
      (by simpa using hrun)
  obtain ⟨tx1, hupd, _, _, hbal⟩ := updateBalances_ok db m hnodup (by
    intro p hp
    have hget : mapGet m p.1 = some p.2 := by
      clear hadj htouched hvals
      induction m with
      | nil => cases hp
      | cons hd tl ih =>
        obtain ⟨k, v⟩ := hd
        simp only [List.map_cons, List.nodup_cons] at hnodup
        rcases List.mem_cons.mp hp with e | e
        · subst e
          simp [mapGet]
        · have hne : ¬ k = p.1 := by
            intro e'
            apply hnodup.1
            rw [e']
            exact List.mem_map_of_mem Prod.fst e
          simp [mapGet, hne, ih hnodup.2 e]
    have h := (hvals p.1 p.2 hget).1
    rw [h, GetBalance]
    cases mapGet db.balances p.1 <;> rfl)
  refine ⟨(createTransactions tx1 (primaryTx :: supplementalTxs) []).1,
    (createTransactions tx1 (primaryTx :: supplementalTxs) []).2, ?_, ?_⟩
  · simp only [tryInsert, hadj, hupd]
  · intro tx htx
    obtain ⟨b, hb⟩ := htouched tx (by simpa using htx)
    rw [createTransactions_balances, hbal, hb]
    obtain ⟨_, hnew, _⟩ := hvals _ _ hb
    simp only [List.nil_append] at hnew
    simp only [hnew]

end LedgerInsert

section LedgerClaims

variable {V : Type}

/-- C2, as amended. For a batch of a primary transaction and at most 5
supplemental ones whose amounts, truncated to micro-dollars, are signed 64-bit
integers, without a concurrent writer: if after each transaction of the batch,
taken in order with the primary one first, the balance of its user (the
current balance, zero without a row, plus the truncated amounts of the user's
transactions up to and including this one) is not negative and not above
2^63 - 1, then `Insert` succeeds and the balance of every user of the batch
becomes the current balance plus the net delta of the user over the batch. -/
theorem Insert_running_balance (db : DB V) (primaryTx : Transaction V)
    (supplementalTxs : List (Transaction V))
    (hlen : supplementalTxs.length ≤ 5)
    (hfit : ∀ tx ∈ primaryTx :: supplementalTxs, inInt64 (truncatedMicro tx.Amount))
    (hrun : ∀ pre tx post, primaryTx :: supplementalTxs = pre ++ tx :: post →
      0 ≤ currentBalance db tx.UserID + netDelta tx.UserID (pre ++ [tx]) ∧
      currentBalance db tx.UserID + netDelta tx.UserID (pre ++ [tx]) ≤ maxInt64) :
    ∃ txIDs db', Insert db (fun _ d => d) primaryTx supplementalTxs = (.ok txIDs, db') ∧
      ∀ tx ∈ primaryTx :: supplementalTxs,
        currentBalance db' tx.UserID
          = currentBalance db tx.UserID
              + netDelta tx.UserID (primaryTx :: supplementalTxs) := by
  obtain ⟨txIDs, db', htry, hbal⟩ := tryInsert_ok db primaryTx supplementalTxs hfit hrun
  refine ⟨txIDs, db', ?_, ?_⟩
  · have hnot : ¬ supplementalTxs.length > supplementalTxLimit := by
      unfold supplementalTxLimit; omega
    simp only [Insert, hnot, if_false, insertRetry, htry]
  · intro tx htx
    simp only [currentBalance, hbal tx htx, Option.getD_some]

/-- The statement `Insert_running_balance` for a balance of 50, a primary
transaction of +100 and a supplemental one of -30: the balance becomes 120. -/
theorem Insert_running_balance_witness :
    ∃ txIDs db', Insert sampleDB (fun _ d => d) (sampleTx 100) [sampleTx (-30)]
        = (.ok txIDs, db') ∧ currentBalance db' sampleID = 120 := by
  obtain ⟨txIDs, db', hins, hbal⟩ :=
    Insert_running_balance sampleDB (sampleTx 100) [sampleTx (-30)] (by decide)
      (by
        intro tx htx
        simp only [List.mem_cons, List.mem_singleton, List.not_mem_nil, or_false] at htx
        rcases htx with h | h <;> rw [h] <;> decide)
      (by
        intro pre tx post h
        rcases pre with _ | ⟨a, _ | ⟨b, pre⟩⟩
        · simp only [List.nil_append, List.cons.injEq] at h
          rw [← h.1]
          decide
        · simp only [List.cons_append, List.nil_append, List.cons.injEq] at h
          rw [← h.1, ← h.2.1]
          decide
        · simp at h)
  refine ⟨txIDs, db', hins, ?_⟩
  have h := hbal (sampleTx 100) (List.mem_cons_self _ _)
  have hnet : currentBalance sampleDB (sampleTx 100).UserID
      + netDelta (sampleTx 100).UserID [sampleTx 100, sampleTx (-30)] = 120 := by decide
  rw [hnet] at h
  exact h

/-- C2, as stated, fails, in three ways. (1) The sample user has a balance of
50, the primary transaction is -100 and the supplemental one +200: the balance
plus the net delta is 150, not negative, and yet `Insert` fails with
`InsufficientFunds`, because the balance is checked after each transaction, and
it is -50 after the first. (2) With a balance of 2^63 - 1 and a primary
transaction of +1 the balance plus the net delta is 2^63, and `Insert` fails
with `InsufficientFunds`: the `int64` sum wraps around to -2^63. (3) With a
balance of 50 and a primary transaction of +10^15 cents, which are 10^19
micro-dollars, `Insert` fails with `InsufficientFunds`: the conversion to
`int64` micro-dollars gives -8446744073709551616. -/
theorem Insert_net_delta_counterexample :
    ((∀ tx ∈ [sampleTx (-100), sampleTx 200],
        0 ≤ currentBalance sampleDB tx.UserID
              + netDelta tx.UserID [sampleTx (-100), sampleTx 200]) ∧
      currentBalance sampleDB sampleID + netDelta sampleID [sampleTx (-100), sampleTx 200]
        = 150 ∧
      Insert sampleDB (fun _ d => d) (sampleTx (-100)) [sampleTx 200]
        = (.error .InsufficientFunds, sampleDB)) ∧
    (currentBalance (sampleBalanceDB 9223372036854775807) sampleID
          + netDelta sampleID [sampleTx 1] = 9223372036854775808 ∧
      Insert (sampleBalanceDB 9223372036854775807) (fun _ d => d) (sampleTx 1) []
        = (.error .InsufficientFunds, sampleBalanceDB 9223372036854775807)) ∧
    (currentBalance sampleDB sampleID + netDelta sampleID [sampleCentsTx 1000000000000000]
        = 10000000000000000050 ∧
      (convertToUSDMicro (sampleCentsTx 1000000000000000).Amount).baseUnits
        = -8446744073709551616 ∧
      Insert sampleDB (fun _ d => d) (sampleCentsTx 1000000000000000) []
        = (.error .InsufficientFunds, sampleDB)) := by
  refine ⟨⟨by decide, by decide, rfl⟩, ⟨by decide, rfl⟩, ⟨by decide, by decide, rfl⟩⟩

/-- C3, as amended. For a batch of a primary transaction and at most 5
supplemental ones, where the amounts truncated to micro-dollars and the current
balances of the users of the batch are signed 64-bit integers and no user's
current balance plus the truncated amount of the user's first transaction of
the batch is below -2^63 (as it is when that balance is not negative): if for
some user of the batch the current balance plus the net delta of the user's
transactions is negative, `Insert` fails with `InsufficientFunds` and leaves
the database as it was: every balance row and every transaction row. -/
theorem Insert_insufficient_funds (db : DB V) (others : Nat → DB V → DB V)
    (primaryTx : Transaction V) (supplementalTxs : List (Transaction V))
    (hlen : supplementalTxs.length ≤ 5)
    (hfit : ∀ tx ∈ primaryTx :: supplementalTxs, inInt64 (truncatedMicro tx.Amount))
    (hcur : ∀ tx ∈ primaryTx :: supplementalTxs, inInt64 (currentBalance db tx.UserID))
    (hfirst : ∀ pre tx post, primaryTx :: supplementalTxs = pre ++ tx :: post →
      (∀ t ∈ pre, t.UserID ≠ tx.UserID) →
      minInt64 ≤ currentBalance db tx.UserID + truncatedMicro tx.Amount)
    (hneg : ∃ tx ∈ primaryTx :: supplementalTxs,
      currentBalance db tx.UserID + netDelta tx.UserID (primaryTx :: supplementalTxs) < 0) :
    Insert db others primaryTx supplementalTxs = (.error .InsufficientFunds, db) := by
  have hnot : ¬ supplementalTxs.length > supplementalTxLimit := by
    unfold supplementalTxLimit; omega
  have hadj : adjustBalances db (primaryTx :: supplementalTxs) []
      = .error .InsufficientFunds := by
    rcases adjustBalances_result db (primaryTx :: supplementalTxs) [] [] (BalancesInv_nil db)
      hfit hcur (by simpa using hfirst) with h | ⟨m, _, _, htouched, hvals⟩
    · exact h
    · obtain ⟨tx, htx, hlt⟩ := hneg
      obtain ⟨b, hb⟩ := htouched tx (by simpa using htx)
      obtain ⟨_, _, hpos, _⟩ := hvals _ _ hb
      simp only [List.nil_append] at hpos
      omega
  simp only [Insert, hnot, if_false, insertRetry, tryInsert, hadj, IsConstraintViolation]
  rfl

/-- The statement `Insert_insufficient_funds` for a balance of 50, a primary
transaction of +100 and a supplemental one of -200: the call fails and the
balance stays 50. -/
theorem Insert_insufficient_funds_witness :
    Insert sampleDB (fun _ d => d) (sampleTx 100) [sampleTx (-200)]
        = (.error .InsufficientFunds, sampleDB) ∧
      currentBalance sampleDB sampleID = 50 :=
  ⟨Insert_insufficient_funds sampleDB (fun _ d => d) (sampleTx 100) [sampleTx (-200)]
      (by decide)
      (by
        intro tx htx
        simp only [List.mem_cons, List.mem_singleton, List.not_mem_nil, or_false] at htx
        rcases htx with h | h <;> rw [h] <;> decide)
      (by
        intro tx htx
        simp only [List.mem_cons, List.mem_singleton, List.not_mem_nil, or_false] at htx
        rcases htx with h | h <;> rw [h] <;> decide)
      (by
        intro pre tx post h _
        rcases pre with _ | ⟨a, _ | ⟨b, pre⟩⟩
        · simp only [List.nil_append, List.cons.injEq] at h
          rw [← h.1]
          decide
        · simp only [List.cons_append, List.nil_append, List.cons.injEq] at h
          rw [← h.2.1]
          decide
        · simp at h)
      ⟨sampleTx 100, by simp, by decide⟩,
    by decide⟩

/-- C3, as stated, fails, in two ways. (1) The sample user has a balance of 50
and the primary transaction is a debit of 10^15 cents, which are 10^19
micro-dollars: the balance plus the net delta is negative, and yet `Insert`
succeeds and raises the balance, because the conversion to `int64`
micro-dollars gives +8446744073709551616. (2) With a balance of -2^63 and a
primary transaction of -1 the balance plus the net delta is negative, and
`Insert` succeeds and sets the balance to 2^63 - 1: the `int64` sum wraps
around. -/
theorem Insert_insufficient_funds_counterexample :
    (currentBalance sampleDB sampleID + netDelta sampleID [sampleCentsTx (-1000000000000000)]
        < 0 ∧
      (convertToUSDMicro (sampleCentsTx (-1000000000000000)).Amount).baseUnits
        = 8446744073709551616 ∧
      (Insert sampleDB (fun _ d => d) (sampleCentsTx (-1000000000000000)) []).1 = .ok [1] ∧
      currentBalance
          (Insert sampleDB (fun _ d => d) (sampleCentsTx (-1000000000000000)) []).2 sampleID
        = 8446744073709551666) ∧
    (currentBalance (sampleBalanceDB (-9223372036854775808)) sampleID
          + netDelta sampleID [sampleTx (-1)] < 0 ∧
      (Insert (sampleBalanceDB (-9223372036854775808)) (fun _ d => d) (sampleTx (-1)) []).1
        = .ok [1] ∧
      currentBalance
          (Insert (sampleBalanceDB (-9223372036854775808)) (fun _ d => d) (sampleTx (-1)) []).2
          sampleID
        = 9223372036854775807) := by
  refine ⟨⟨by decide, by decide, rfl, by decide⟩, ⟨by decide, rfl, by decide⟩⟩

end LedgerClaims

/-! ## `GetAllProjectTotals` -/

/-- The bulk fetch for a single tenant: one fetch of that tenant's two keys,
whatever the batch size. -/
theorem fillUsage_single (cache : Redis) (batchSize : Int) (p : UUID) (z : Usage) :
    fillUsage cache batchSize [(p, z)]
      = match fetchProjectsUsage cache
          ⟨[p], [createSegmentProjectIDKey p], [createStorageProjectIDKey p]⟩ [(p, z)] with
        | .error e => .error e
        | .ok projects => .ok (some projects) := by
  simp only [fillUsage, fillLoop, List.map, List.length, List.nil_append]
  by_cases h : ((([p] : List UUID).length : Nat) : Int) ≥ batchSize
  · simp only [List.length] at h
    simp only [Nat.add_eq_zero, one_ne_zero, and_false, if_false, h, if_true]
    cases fetchProjectsUsage cache
      ⟨[p], [createSegmentProjectIDKey p], [createStorageProjectIDKey p]⟩ [(p, z)] with
    | error e => rfl
    | ok projects => rfl
  · simp only [List.length] at h
    simp only [Nat.add_eq_zero, one_ne_zero, and_false, if_false, h]

/-- C4 at a failing input. With a cache that holds only the storage key of the
sample tenant (value 10), or only its segment key (value 3), and any batch
size, `GetAllProjectTotals` does not return totals with a zero for the missing
counter: the bulk read replies nil for the missing key, and the type assertion
of `fillUsage` on that reply is a run-time fault. With both keys there, the
totals are the two stored values. -/
theorem GetAllProjectTotals_missing_counter (batchSize : Int) :
    GetAllProjectTotals [(createStorageProjectIDKey sampleID, ⟨Val.int 10, none⟩)] batchSize
      = .error .nilInterfaceConversion ∧
    GetAllProjectTotals [(createSegmentProjectIDKey sampleID, ⟨Val.int 3, none⟩)] batchSize
      = .error .nilInterfaceConversion ∧
    GetAllProjectTotals
        [(createStorageProjectIDKey sampleID, ⟨Val.int 10, none⟩),
         (createSegmentProjectIDKey sampleID, ⟨Val.int 3, none⟩)] batchSize
      = .ok (some [(sampleID, ⟨10, 3⟩)]) := by
  have hscan1 : scanProjects
      (Redis.scan [(createStorageProjectIDKey sampleID, ⟨Val.int 10, none⟩)]) []
      = .ok [(sampleID, Usage.zero)] := rfl
  have hscan2 : scanProjects
      (Redis.scan [(createSegmentProjectIDKey sampleID, ⟨Val.int 3, none⟩)]) []
      = .ok [(sampleID, Usage.zero)] := rfl
  have hscan3 : scanProjects
      (Redis.scan [(createStorageProjectIDKey sampleID, ⟨Val.int 10, none⟩),
        (createSegmentProjectIDKey sampleID, ⟨Val.int 3, none⟩)]) []
      = .ok [(sampleID, Usage.zero)] := rfl
  refine ⟨?_, ?_, ?_⟩
  · rw [GetAllProjectTotals, hscan1]
    simp only [fillUsage_single]
    rfl
  · rw [GetAllProjectTotals, hscan2]
    simp only [fillUsage_single]
    rfl
  · rw [GetAllProjectTotals, hscan3]
    simp only [fillUsage_single]
    rfl

theorem UUID.eq_of_bytes (p q : UUID) (h : p.bytes = q.bytes) : p = q := by
  cases p
  cases q
  simp only at h
  subst h
  rfl

theorem UUID.FromBytes_bytes (p : UUID) : UUID.FromBytes p.bytes = some p := by
  simp [UUID.FromBytes, p.len]

/-- The 16 bytes of an identifier, one by one. -/
theorem UUID.bytes_eq (p : UUID) :
    ∃ a0 a1 a2 a3 a4 a5 a6 a7 a8 a9 a10 a11 a12 a13 a14 a15,
      p.bytes = [a0, a1, a2, a3, a4, a5, a6, a7, a8, a9, a10, a11, a12, a13, a14, a15] := by
  obtain ⟨l, hl⟩ := p
  match l, hl with
  | [a0, a1, a2, a3, a4, a5, a6, a7, a8, a9, a10, a11, a12, a13, a14, a15], _ =>
    exact ⟨a0, a1, a2, a3, a4, a5, a6, a7, a8, a9, a10, a11, a12, a13, a14, a15, rfl⟩

/-- How the key loop classifies a segment key. -/
theorem segmentKey_class (p : UUID) :
    HasSuffix (createSegmentProjectIDKey p) bandwidthWord = false ∧
    HasSuffix (createSegmentProjectIDKey p) segmentWord = true ∧
    UUID.FromBytes (TrimSuffix (createSegmentProjectIDKey p) segmentSuffix) = some p := by
  obtain ⟨a0, a1, a2, a3, a4, a5, a6, a7, a8, a9, a10, a11, a12, a13, a14, a15, hb⟩ :=
    p.bytes_eq
  have hfrom := p.FromBytes_bytes
  rw [hb] at hfrom
  refine ⟨?_, ?_, ?_⟩
  · simp [HasSuffix, createSegmentProjectIDKey, hb, segmentSuffix, bandwidthWord]
  · simp [HasSuffix, createSegmentProjectIDKey, hb, segmentSuffix, segmentWord]
  · simpa [TrimSuffix, HasSuffix, createSegmentProjectIDKey, hb, segmentSuffix] using hfrom

/-- The key loop skips a bandwidth key, whatever its date. -/
theorem bandwidthKey_class (p : UUID) (t : Time) :
    HasSuffix (createBandwidthProjectIDKey p t) bandwidthWord = true := by
  have hdrop : ∀ l : Key, (l ++ bandwidthSuffix).drop
      ((l ++ bandwidthSuffix).length - bandwidthWord.length) = bandwidthWord := by
    intro l
    have h : (l ++ bandwidthSuffix).length - bandwidthWord.length = l.length + 1 := by
      simp [bandwidthSuffix, bandwidthWord]
    rw [h, List.drop_append]
    rfl
  have h := hdrop (p.bytes ++ stringOfByte (byte t.month) ++ stringOfByte (byte t.day))
  simp only [HasSuffix, createBandwidthProjectIDKey, Time.Date, h, decide_True]

theorem storageKey_length (p : UUID) : (createStorageProjectIDKey p).length = 16 := p.len

theorem segmentKey_length (p : UUID) : (createSegmentProjectIDKey p).length = 24 := by
  simp [createSegmentProjectIDKey, segmentSuffix, p.len]

theorem bandwidthKey_length (p : UUID) (t : Time) :
    28 ≤ (createBandwidthProjectIDKey p t).length := by
  have h : ∀ b, 1 ≤ (stringOfByte b).length := by
    intro b
    unfold stringOfByte
    split <;> simp
  have h1 := h (byte t.month)
  have h2 := h (byte t.day)
  simp only [createBandwidthProjectIDKey, Time.Date, bandwidthSuffix, List.length_append,
    p.len, List.length_cons, List.length_nil]
  omega

theorem storageKey_inj (p q : UUID) :
    createStorageProjectIDKey p = createStorageProjectIDKey q ↔ p = q :=
  ⟨fun h => UUID.eq_of_bytes p q h, fun h => by rw [h]⟩

theorem segmentKey_inj (p q : UUID) :
    createSegmentProjectIDKey p = createSegmentProjectIDKey q ↔ p = q := by
  constructor
  · intro h
    exact UUID.eq_of_bytes p q (List.append_cancel_right h)
  · intro h
    rw [h]

/-- The key loop of `GetAllProjectTotals` over keys that the three key
functions made, none of the storage keys ending in the text `bandwidth` or
`:segment`: it finds the tenants already found and the tenants of the storage
and segment keys. -/
theorem scanProjects_spec (keys : List Key) (acc : List (UUID × Usage))
    (hkeys : ∀ key ∈ keys,
      (∃ p, key = createStorageProjectIDKey p ∧ HasSuffix p.bytes bandwidthWord = false ∧
        HasSuffix p.bytes segmentSuffix = false) ∨
      (∃ p, key = createSegmentProjectIDKey p) ∨
      (∃ p t, key = createBandwidthProjectIDKey p t)) :
    ∃ projects, scanProjects keys acc = .ok projects ∧
      ∀ p : UUID, p ∈ projects.map Prod.fst ↔
        (p ∈ acc.map Prod.fst ∨ createStorageProjectIDKey p ∈ keys ∨
          createSegmentProjectIDKey p ∈ keys) := by
  induction keys generalizing acc with
  | nil => exact ⟨acc, rfl, by simp⟩
  | cons key rest ih =>
    have hrest : ∀ k ∈ rest, _ := fun k hk => hkeys k (List.mem_cons_of_mem _ hk)
    rcases hkeys key (List.mem_cons_self _ _) with ⟨q, hq, hbw, hseg⟩ | ⟨q, hq⟩ | ⟨q, t, hq⟩
    · -- a storage key
      obtain ⟨projects, hscan, hmem⟩ := ih (mapSet acc q Usage.zero) hrest
      have hstep : scanProjects (key :: rest) acc
          = scanProjects rest (mapSet acc q Usage.zero) := by
        have hbw' : HasSuffix key bandwidthWord = false := by rw [hq]; exact hbw
        have htrim : TrimSuffix key segmentSuffix = key := by
          have : HasSuffix key segmentSuffix = false := by rw [hq]; exact hseg
          simp [TrimSuffix, this]
        have hfrom : UUID.FromBytes key = some q := by rw [hq]; exact q.FromBytes_bytes
        simp [scanProjects, hbw', htrim, hfrom]
      refine ⟨projects, by rw [hstep, hscan], ?_⟩
      intro p
      rw [hmem p, mem_keys_mapSet, hq]
      have hne : createSegmentProjectIDKey p ≠ createStorageProjectIDKey q := by
        intro e
        have h1 := segmentKey_length p
        rw [e, storageKey_length] at h1
        omega
      simp only [List.mem_cons, storageKey_inj, hne, false_or]
      tauto
    · -- a segment key
      obtain ⟨projects, hscan, hmem⟩ := ih (mapSet acc q Usage.zero) hrest
      obtain ⟨hbw, hseg, hfrom⟩ := segmentKey_class q
      have hstep : scanProjects (key :: rest) acc
          = scanProjects rest (mapSet acc q Usage.zero) := by
        rw [hq]
        simp [scanProjects, hbw, hseg, hfrom]
      refine ⟨projects, by rw [hstep, hscan], ?_⟩
      intro p
      rw [hmem p, mem_keys_mapSet, hq]
      have hne : createStorageProjectIDKey p ≠ createSegmentProjectIDKey q := by
        intro e
        have h1 := storageKey_length p
        rw [e, segmentKey_length] at h1
        omega
      simp only [List.mem_cons, segmentKey_inj, hne, false_or]
      tauto
    · -- a bandwidth key
      obtain ⟨projects, hscan, hmem⟩ := ih acc hrest
      have hstep : scanProjects (key :: rest) acc = scanProjects rest acc := by
        rw [hq]
        simp [scanProjects, bandwidthKey_class]
      refine ⟨projects, by rw [hstep, hscan], ?_⟩
      intro p
      rw [hmem p, hq]
      have hne1 : createStorageProjectIDKey p ≠ createBandwidthProjectIDKey q t := by
        intro e
        have h1 := storageKey_length p
        have h2 := bandwidthKey_length q t
        rw [e] at h1
        omega
      have hne2 : createSegmentProjectIDKey p ≠ createBandwidthProjectIDKey q t := by
        intro e
        have h1 := segmentKey_length p
        have h2 := bandwidthKey_length q t
        rw [e] at h1
        omega
      simp only [List.mem_cons, hne1, hne2, false_or]

/-- C5, as amended. For a cache whose keys are all made by
`createStorageProjectIDKey`, `createSegmentProjectIDKey` or
`createBandwidthProjectIDKey`, where no tenant with a storage key has an
identifier whose bytes end in the text `bandwidth` or in the text `:segment`:
the key scan of `GetAllProjectTotals` returns no error, and the tenants it
hands to the bulk fetch are exactly the tenants that have a storage key or a
segment key in the cache. -/
theorem GetAllProjectTotals_scan (cache : Redis)
    (hkeys : ∀ key ∈ cache.scan,
      (∃ p, key = createStorageProjectIDKey p ∧ HasSuffix p.bytes bandwidthWord = false ∧
        HasSuffix p.bytes segmentSuffix = false) ∨
      (∃ p, key = createSegmentProjectIDKey p) ∨
      (∃ p t, key = createBandwidthProjectIDKey p t)) :
    ∃ projects, scanProjects cache.scan [] = .ok projects ∧
      GetAllProjectTotals cache = (fun batchSize => fillUsage cache batchSize projects) ∧
      ∀ p : UUID, p ∈ projects.map Prod.fst ↔
        (createStorageProjectIDKey p ∈ cache.scan ∨
          createSegmentProjectIDKey p ∈ cache.scan) := by
  obtain ⟨projects, hscan, hmem⟩ := scanProjects_spec cache.scan [] hkeys
  refine ⟨projects, hscan, ?_, ?_⟩
  · funext batchSize
    simp [GetAllProjectTotals, hscan]
  · intro p
    rw [hmem p]
    simp

/-- The statement `GetAllProjectTotals_scan` for a cache with the storage key
and the bandwidth key of the sample tenant: the scan finds that tenant only.
-/
theorem GetAllProjectTotals_scan_witness :
    ∃ projects,
      scanProjects
          (Redis.scan [(createStorageProjectIDKey sampleID, ⟨Val.int 10, none⟩),
            (createBandwidthProjectIDKey sampleID ⟨2024, 3, 4⟩, ⟨Val.int 5, some 60⟩)]) []
        = .ok projects ∧
      ∀ p : UUID, p ∈ projects.map Prod.fst ↔ p = sampleID := by
  obtain ⟨projects, hscan, _, hmem⟩ := GetAllProjectTotals_scan
    [(createStorageProjectIDKey sampleID, ⟨Val.int 10, none⟩),
      (createBandwidthProjectIDKey sampleID ⟨2024, 3, 4⟩, ⟨Val.int 5, some 60⟩)]
    (by
      intro key hkey
      simp only [Redis.scan, List.map_cons, List.map_nil, List.mem_cons, List.mem_singleton,
        List.not_mem_nil, or_false] at hkey
      rcases hkey with h | h
      · exact Or.inl ⟨sampleID, h, by decide, by decide⟩
      · exact Or.inr (Or.inr ⟨sampleID, ⟨2024, 3, 4⟩, h⟩))
  refine ⟨projects, hscan, ?_⟩
  intro p
  rw [hmem p]
  have hne1 : createStorageProjectIDKey p ≠ createBandwidthProjectIDKey sampleID ⟨2024, 3, 4⟩ := by
    intro e
    have h1 := storageKey_length p
    have h2 := bandwidthKey_length sampleID ⟨2024, 3, 4⟩
    rw [e] at h1
    omega
  have hne2 : createSegmentProjectIDKey p ≠ createBandwidthProjectIDKey sampleID ⟨2024, 3, 4⟩ := by
    intro e
    have h1 := segmentKey_length p
    have h2 := bandwidthKey_length sampleID ⟨2024, 3, 4⟩
    rw [e] at h1
    omega
  have hne3 : createSegmentProjectIDKey p ≠ createStorageProjectIDKey sampleID := by
    intro e
    have h1 := segmentKey_length p
    rw [e, storageKey_length] at h1
    omega
  simp [Redis.scan, storageKey_inj, hne1, hne2, hne3]

/-- C5, as stated, fails. A cache whose only key is the storage key of a
tenant whose identifier ends in the text `bandwidth`: the scan takes the key
for a bandwidth key and finds no tenant. A cache whose only key is the storage
key of a tenant whose identifier ends in the text `:segment`: the scan takes
the key for a segment key, cuts the suffix off and fails with
`UnexpectedValue`. -/
theorem GetAllProjectTotals_scan_counterexample :
    (scanProjects
        (Redis.scan [(createStorageProjectIDKey tenantBandwidth, ⟨Val.int 10, none⟩)]) []
        = .ok [] ∧
      createStorageProjectIDKey tenantBandwidth
        ∈ Redis.scan [(createStorageProjectIDKey tenantBandwidth, ⟨Val.int 10, none⟩)]) ∧
    scanProjects
        (Redis.scan [(createStorageProjectIDKey tenantSegment, ⟨Val.int 10, none⟩)]) []
      = .error .UnexpectedValue ∧
    GetAllProjectTotals [(createStorageProjectIDKey tenantSegment, ⟨Val.int 10, none⟩)] 1
      = .error .UnexpectedValue := by
  refine ⟨⟨rfl, by decide⟩, rfl, rfl⟩

/-! ## Metadata documents: `updateMetadata` -/

section Metadata

variable {V : Type} {κ : Type} [DecidableEq κ]

theorem mapGet_append (l1 l2 : List (κ × V)) (k : κ) :
    mapGet (l1 ++ l2) k = (mapGet l1 k).orElse (fun _ => mapGet l2 k) := by
  induction l1 with
  | nil => simp [mapGet]
  | cons hd tl ih =>
    obtain ⟨k', v'⟩ := hd
    by_cases h : k' = k
    · simp [mapGet, h]
    · simp [mapGet, h, ih]

theorem mapGet_eq_some_iff (l : List (κ × V)) (k : κ) (v : V)
    (hnodup : (l.map Prod.fst).Nodup) : mapGet l k = some v ↔ (k, v) ∈ l := by
  induction l with
  | nil => simp [mapGet]
  | cons hd tl ih =>
    obtain ⟨k', v'⟩ := hd
    simp only [List.map_cons, List.nodup_cons] at hnodup
    by_cases h : k' = k
    · subst h
      simp only [mapGet, if_true, Option.some.injEq, List.mem_cons, Prod.mk.injEq, true_and]
      constructor
      · intro e
        exact Or.inl e.symm
      · rintro (e | e)
        · exact e.symm
        · exact absurd (List.mem_map_of_mem Prod.fst e) hnodup.1
    · have h' : ¬ k = k' := fun e => h e.symm
      simp [mapGet, h, h', ih hnodup.2]

theorem mapGet_perm (l1 l2 : List (κ × V)) (k : κ) (hperm : l1.Perm l2)
    (hnodup : (l1.map Prod.fst).Nodup) : mapGet l1 k = mapGet l2 k := by
  have hnodup2 : (l2.map Prod.fst).Nodup := (hperm.map Prod.fst).nodup_iff.mp hnodup
  apply Option.ext
  intro v
  simp only [Option.mem_def]
  rw [mapGet_eq_some_iff l1 k v hnodup, mapGet_eq_some_iff l2 k v hnodup2]
  exact hperm.mem_iff

/-- The members of a JSON object stored into a Go map one after the other. -/
theorem mapGet_foldl_mapSet (members acc : List (κ × V)) (k : κ) :
    mapGet (members.foldl (fun acc kv => mapSet acc kv.1 kv.2) acc) k
      = (mapGet members.reverse k).orElse (fun _ => mapGet acc k) := by
  induction members generalizing acc with
  | nil => simp [mapGet]
  | cons hd tl ih =>
    obtain ⟨k', v'⟩ := hd
    simp only [List.foldl_cons, List.reverse_cons]
    rw [ih, mapGet_append]
    cases mapGet tl.reverse k with
    | some v => simp
    | none =>
      by_cases h : k' = k
      · subst h
        simp [mapGet, mapGet_mapSet_self]
      · have h' : k ≠ k' := fun e => h e.symm
        simp [mapGet, h, mapGet_mapSet_ne _ _ _ _ h']

theorem nodup_keys_foldl_mapSet (members acc : List (κ × V))
    (h : (acc.map Prod.fst).Nodup) :
    ((members.foldl (fun acc kv => mapSet acc kv.1 kv.2) acc).map Prod.fst).Nodup := by
  induction members generalizing acc with
  | nil => exact h
  | cons hd tl ih => exact ih _ (nodup_keys_mapSet _ _ _ h)

theorem mem_keys_iff_mapGet (l : List (κ × V)) (k : κ) :
    k ∈ l.map Prod.fst ↔ ∃ v, mapGet l k = some v := by
  constructor
  · intro h
    cases hget : mapGet l k with
    | some v => exact ⟨v, rfl⟩
    | none =>
      exfalso
      induction l with
      | nil => cases h
      | cons hd tl ih =>
        obtain ⟨k', v'⟩ := hd
        by_cases hk : k' = k
        · simp [mapGet, hk] at hget
        · simp only [mapGet, hk, if_false] at hget
          simp only [List.map_cons, List.mem_cons] at h
          rcases h with e | e
          · exact hk e.symm
          · exact ih e hget
  · rintro ⟨v, hv⟩
    exact mem_keys_of_mapGet l k v hv

end Metadata

section MetadataClaims

variable {V : Type}

theorem mem_of_mapGet {κ α : Type} [DecidableEq κ] (l : List (κ × α)) (k : κ) (v : α)
    (h : mapGet l k = some v) : (k, v) ∈ l := by
  induction l with
  | nil => simp [mapGet] at h
  | cons hd tl ih =>
    obtain ⟨k', v'⟩ := hd
    by_cases hk : k' = k
    · simp only [mapGet, hk, if_true, Option.some.injEq] at h
      rw [hk, h]
      exact List.mem_cons_self _ _
    · simp only [mapGet, hk, if_false] at h
      exact List.mem_cons_of_mem _ (ih h)

theorem mapGet_map_value {κ α β : Type} [DecidableEq κ] (l : List (κ × α)) (g : α → β)
    (k : κ) : mapGet (l.map (fun kv => (kv.1, g kv.2))) k = (mapGet l k).map g := by
  induction l with
  | nil => rfl
  | cons hd tl ih =>
    obtain ⟨k', v'⟩ := hd
    by_cases hk : k' = k
    · simp [mapGet, hk]
    · simp [mapGet, hk, ih]

/-- The decoding of the members of an object none of which the decoder
rejects: every key gets the Go value of its last member. -/
theorem decodeMembers_of_decodes (members : List (Key × Member V))
    (h : ∀ p ∈ members, p.2.reencoded ≠ none) :
    ∃ decoded, decodeMembers members = some decoded ∧
      ∀ k, mapGet decoded.reverse k = reencodedValue members k := by
  induction members with
  | nil => exact ⟨[], rfl, fun _ => rfl⟩
  | cons hd tl ih =>
    obtain ⟨key, mv⟩ := hd
    obtain ⟨decoded, hdec, hval⟩ := ih (fun p hp => h p (List.mem_cons_of_mem _ hp))
    cases mv with
    | fails w => exact absurd rfl (h (key, .fails w) (List.mem_cons_self _ _))
    | decodes w r =>
      refine ⟨(key, r) :: decoded, by simp [decodeMembers, hdec], ?_⟩
      intro k
      have hval' := hval k
      unfold reencodedValue at hval' ⊢
      rw [List.reverse_cons, List.reverse_cons, mapGet_append, mapGet_append, hval']
      cases hget : mapGet tl.reverse k with
      | some mv' =>
        have hmem : (k, mv') ∈ tl := by
          have := mem_of_mapGet _ _ _ hget
          simpa using this
        have hne := h (k, mv') (List.mem_cons_of_mem _ hmem)
        cases mv' with
        | fails w' => exact absurd rfl hne
        | decodes w' r' => simp [Member.reencoded]
      | none =>
        by_cases hk : key = k
        · simp [mapGet, hk, Member.reencoded]
        · simp [mapGet, hk]

/-- The marshalling of a Go map gives every key the value it has in the map.
-/
theorem jsonMarshal_some (m : List (Key × V)) (hnodup : (m.map Prod.fst).Nodup) :
    ∃ members, jsonMarshal (some m) = some (.object members) ∧
      (members.map Prod.fst).Nodup ∧
      ∀ k, objectValue members k = mapGet m k := by
  refine ⟨(m.insertionSort (fun a b : Key × V => stringLE a.1 b.1 = true)).map
    (fun kv : Key × V => (kv.1, Member.decodes kv.2 kv.2)), rfl, ?_, ?_⟩
  · have hkeys : ((m.insertionSort (fun a b : Key × V => stringLE a.1 b.1 = true)).map
        (fun kv : Key × V => (kv.1, Member.decodes kv.2 kv.2))).map Prod.fst
        = (m.insertionSort (fun a b : Key × V => stringLE a.1 b.1 = true)).map Prod.fst := by
      rw [List.map_map]
      rfl
    rw [hkeys]
    exact ((List.perm_insertionSort _ m).map Prod.fst).nodup_iff.mpr hnodup
  · intro k
    have hperm : (m.insertionSort (fun a b => stringLE a.1 b.1 = true)).reverse.Perm m :=
      (List.reverse_perm _).trans (List.perm_insertionSort _ m)
    unfold objectValue
    rw [← List.map_reverse, mapGet_map_value _ (fun v : V => Member.decodes v v) k,
      Option.map_map,
      mapGet_perm _ _ k hperm ((hperm.map Prod.fst).nodup_iff.mpr hnodup)]
    cases mapGet m k <;> rfl

/-- The merge of two objects by `updateMetadata`, when the decoder rejects
none of their member values. -/
theorem updateMetadata_objects (old new : List (Key × Member V))
    (hold : ∀ p ∈ old, p.2.reencoded ≠ none) (hnew : ∀ p ∈ new, p.2.reencoded ≠ none) :
    ∃ merged, updateMetadata (some (.object old)) (some (.object new))
        = .ok (some (.object merged)) ∧
      (merged.map Prod.fst).Nodup ∧
      ∀ k, objectValue merged k
        = (reencodedValue new k).orElse (fun _ => reencodedValue old k) := by
  obtain ⟨dold, hdold, hvold⟩ := decodeMembers_of_decodes old hold
  obtain ⟨dnew, hdnew, hvnew⟩ := decodeMembers_of_decodes new hnew
  have hn1 : ((dold.foldl (fun acc kv => mapSet acc kv.1 kv.2) []).map Prod.fst).Nodup :=
    nodup_keys_foldl_mapSet dold [] (by simp)
  have hn2 := nodup_keys_foldl_mapSet dnew _ hn1
  obtain ⟨merged, hmarshal, hnodup, hval⟩ := jsonMarshal_some _ hn2
  refine ⟨merged, ?_, hnodup, ?_⟩
  · simp only [updateMetadata, jsonUnmarshal, handleMetaDataZeroValue, hdold, hdnew,
      Option.getD_none, Option.getD_some, hmarshal]
  · intro k
    rw [hval k, mapGet_foldl_mapSet, mapGet_foldl_mapSet, hvold k, hvnew k]
    simp [mapGet]

/-- The keys of a JSON object are the keys it gives a value to. -/
theorem mem_keys_iff_objectValue (l : List (Key × Member V)) (k : Key) :
    k ∈ l.map Prod.fst ↔ ∃ v, objectValue l k = some v := by
  unfold objectValue
  have h : k ∈ l.map Prod.fst ↔ k ∈ l.reverse.map Prod.fst := by simp
  rw [h, mem_keys_iff_mapGet]
  cases mapGet l.reverse k <;> simp

/-- The keys of a JSON object whose values the decoder accepts are the keys
whose value the encoder writes again. -/
theorem mem_keys_iff_reencodedValue (l : List (Key × Member V)) (k : Key)
    (hl : ∀ p ∈ l, p.2.reencoded ≠ none) :
    k ∈ l.map Prod.fst ↔ ∃ v, reencodedValue l k = some v := by
  unfold reencodedValue
  have h : k ∈ l.map Prod.fst ↔ k ∈ l.reverse.map Prod.fst := by simp
  rw [h, mem_keys_iff_mapGet]
  constructor
  · rintro ⟨mv, hmv⟩
    have hmem : (k, mv) ∈ l := by
      have := mem_of_mapGet _ _ _ hmv
      simpa using this
    have hne := hl (k, mv) hmem
    cases hr : mv.reencoded with
    | none => exact absurd hr hne
    | some r => exact ⟨r, by simp [hmv, hr]⟩
  · rintro ⟨v, hv⟩
    cases hget : mapGet l.reverse k with
    | none => simp [hget] at hv
    | some mv => exact ⟨mv, rfl⟩

/-- C6, as amended. For two metadata documents that are JSON objects none of
whose member values the decoder rejects (no number outside the range of
`float64`), `updateMetadata` succeeds and returns a JSON object, without
duplicate keys, whose keys are the keys of the one or the other document, in
which every key of the new document has the value the new document gives it
and every other key has the value the old document gives it, each as the
encoder writes it after decoding: the value itself whenever decoding and
encoding give it back as it is. -/
theorem updateMetadata_merge (old new : List (Key × Member V))
    (hold : ∀ p ∈ old, p.2.reencoded ≠ none) (hnew : ∀ p ∈ new, p.2.reencoded ≠ none) :
    ∃ merged, updateMetadata (some (.object old)) (some (.object new))
        = .ok (some (.object merged)) ∧
      (merged.map Prod.fst).Nodup ∧
      (∀ k, k ∈ merged.map Prod.fst ↔ (k ∈ old.map Prod.fst ∨ k ∈ new.map Prod.fst)) ∧
      (∀ k, k ∈ new.map Prod.fst → objectValue merged k = reencodedValue new k) ∧
      (∀ k, k ∉ new.map Prod.fst → objectValue merged k = reencodedValue old k) ∧
      (∀ k, k ∈ new.map Prod.fst → reencodedValue new k = objectValue new k →
        objectValue merged k = objectValue new k) ∧
      (∀ k, k ∉ new.map Prod.fst → reencodedValue old k = objectValue old k →
        objectValue merged k = objectValue old k) := by
  obtain ⟨merged, hres, hnodup, hval⟩ := updateMetadata_objects old new hold hnew
  have h4 : ∀ k, k ∈ new.map Prod.fst → objectValue merged k = reencodedValue new k := by
    intro k hk
    obtain ⟨v, hv⟩ := (mem_keys_iff_reencodedValue new k hnew).mp hk
    rw [hval k, hv]
    rfl
  have h5 : ∀ k, k ∉ new.map Prod.fst → objectValue merged k = reencodedValue old k := by
    intro k hk
    have hnone : reencodedValue new k = none := by
      cases h : reencodedValue new k with
      | none => rfl
      | some v => exact absurd ((mem_keys_iff_reencodedValue new k hnew).mpr ⟨v, h⟩) hk
    rw [hval k, hnone]
    rfl
  refine ⟨merged, hres, hnodup, ?_, h4, h5, ?_, ?_⟩
  · intro k
    rw [mem_keys_iff_objectValue merged k, mem_keys_iff_reencodedValue old k hold,
      mem_keys_iff_reencodedValue new k hnew, hval k]
    cases reencodedValue new k with
    | some v => simp
    | none => simp
  · intro k hk he
    rw [h4 k hk, he]
  · intro k hk he
    rw [h5 k hk, he]

/-- The statement `updateMetadata_merge` on the documents of the
specification, with `a` the byte 97 and `b` the byte 98: `{"a":1}` merged with
`{"b":2}` is `{"a":1,"b":2}`, and merged with `{"a":3}` it is `{"a":3}`. -/
theorem updateMetadata_merge_witness :
    (∃ merged, updateMetadata (some (.object [([97], Member.decodes (1 : Int) 1)]))
          (some (.object [([98], .decodes 2 2)]))
        = .ok (some (.object merged)) ∧ objectValue merged [98] = some 2) ∧
    updateMetadata (some (.object [([97], Member.decodes (1 : Int) 1)]))
        (some (.object [([98], .decodes 2 2)]))
      = .ok (some (.object [([97], .decodes 1 1), ([98], .decodes 2 2)])) ∧
    updateMetadata (some (.object [([97], Member.decodes (1 : Int) 1)]))
        (some (.object [([97], .decodes 3 3)]))
      = .ok (some (.object [([97], .decodes 3 3)])) := by
  refine ⟨?_, rfl, rfl⟩
  obtain ⟨merged, hres, _, _, hnew, _⟩ :=
    updateMetadata_merge [([97], Member.decodes (1 : Int) 1)] [([98], .decodes 2 2)]
      (by
        intro p hp
        simp only [List.mem_singleton] at hp
        rw [hp]
        simp [Member.reencoded])
      (by
        intro p hp
        simp only [List.mem_singleton] at hp
        rw [hp]
        simp [Member.reencoded])
  exact ⟨merged, hres, by rw [hnew [98] (by simp)]; rfl⟩

/-- C6, as stated, fails for numbers that a `float64` does not hold. The
document `{"a":9007199254740993}` merged with `{}` is
`{"a":9007199254740992}`: the key `a`, which only the old document has, does
not carry the old document's value. The document `{"a":1e400}` merged with
`{}` is no document at all: `updateMetadata` fails. -/
theorem updateMetadata_merge_counterexample :
    (updateMetadata (some (.object [([97], roundedNumber)])) (some (.object []))
        = .ok (some (.object [([97], .decodes 9007199254740992 9007199254740992)])) ∧
      objectValue [([97], roundedNumber)] [97] = some 9007199254740993) ∧
    updateMetadata (some (.object [([97], hugeNumber)])) (some (.object []))
      = .error .jsonType := by
  refine ⟨⟨rfl, rfl⟩, rfl⟩

end MetadataClaims

section UpdateMetadataClaims

variable {V : Type}

/-- C10, as amended. For a transaction row whose metadata document is a JSON
object none of whose member values the decoder rejects (no number outside the
range of `float64`), `UpdateMetadata` with an absent (nil) new document does
not fail and does what it does with the new document `{}`: the metadata stored
afterwards is a JSON object with exactly the keys of the old document, each
with the value the old document gives it as the encoder writes it after
decoding, which is the value itself whenever decoding and encoding give it
back as it is. (A new document of length zero that is not nil is not covered.)
-/
theorem UpdateMetadata_nil (db : DB V) (txID : Int) (row : BillingTransaction V)
    (old : List (Key × Member V))
    (hrow : db.transactions.find? (fun r => decide (r.Id = txID)) = some row)
    (hold : row.Metadata = some (.object old))
    (hdec : ∀ p ∈ old, p.2.reencoded ≠ none) :
    UpdateMetadata db txID none = UpdateMetadata db txID (some (.object [])) ∧
    ∃ merged, (UpdateMetadata db txID none).1 = none ∧
      (UpdateMetadata db txID none).2.transactions.find? (fun r => decide (r.Id = txID))
        = some { row with Metadata := some (.object merged) } ∧
      (∀ k, k ∈ merged.map Prod.fst ↔ k ∈ old.map Prod.fst) ∧
      (∀ k, objectValue merged k = reencodedValue old k) ∧
      (∀ k, reencodedValue old k = objectValue old k →
        objectValue merged k = objectValue old k) := by
  refine ⟨rfl, ?_⟩
  obtain ⟨merged, hres, _, hval⟩ :=
    updateMetadata_objects old ([] : List (Key × Member V)) hdec (by simp)
  have hvals : ∀ k, objectValue merged k = reencodedValue old k := by
    intro k
    rw [hval k]
    rfl
  have hres' : updateMetadata row.Metadata none = .ok (some (.object merged)) := by
    rw [hold]
    exact hres
  have hid : row.Id = txID := by
    have h := List.find?_some hrow
    simpa using h
  refine ⟨merged, ?_, ?_, ?_, hvals, ?_⟩
  · simp [UpdateMetadata, hrow, hres']
  · simp only [UpdateMetadata, hrow, hres']
    rw [List.find?_map]
    have hcomp : ((fun r : BillingTransaction V => decide (r.Id = txID)) ∘
        (fun r : BillingTransaction V =>
          if r.Id = txID then { r with Metadata := some (.object merged) } else r))
        = (fun r : BillingTransaction V => decide (r.Id = txID)) := by
      funext r
      by_cases h : r.Id = txID <;> simp [h]
    rw [hcomp, hrow]
    simp [hid]
  · intro k
    rw [mem_keys_iff_objectValue merged k, mem_keys_iff_reencodedValue old k hdec, hvals k]
  · intro k he
    rw [hvals k, he]

/-- The statement `UpdateMetadata_nil` on the sample ledger: the nil document
leaves `{"a":1}` in the row of id 1. -/
theorem UpdateMetadata_nil_witness :
    UpdateMetadata sampleLedger 1 none = (none, sampleLedger) ∧
    ∃ merged, (UpdateMetadata sampleLedger 1 none).1 = none ∧
      objectValue merged [97] = some (1 : Int) := by
  refine ⟨rfl, ?_⟩
  obtain ⟨_, merged, herr, _, _, hvals, _⟩ :=
    UpdateMetadata_nil sampleLedger 1 (sampleRow (some (.object [([97], .decodes 1 1)])))
      [([97], .decodes 1 1)] rfl rfl
      (by
        intro p hp
        simp only [List.mem_singleton] at hp
        rw [hp]
        simp [Member.reencoded])
  exact ⟨merged, herr, by rw [hvals [97]]; rfl⟩

/-- C10, as stated, fails, for the empty document and for numbers that a
`float64` does not hold. On the sample ledger, whose row of id 1 holds
`{"a":1}`, `UpdateMetadata` with a new document of length zero that is not the
nil slice fails with a JSON syntax error, where the merge with `{}` succeeds:
`handleMetaDataZeroValue` passes every slice but the nil one on as it is. On a
ledger whose row holds `{"a":9007199254740993}`, `UpdateMetadata` with the nil
document stores `{"a":9007199254740992}`, and on one whose row holds
`{"a":1e400}` it fails and stores nothing. -/
theorem UpdateMetadata_empty_counterexample :
    (handleMetaDataZeroValue (some (Content.empty : Content Int)) = some Content.empty ∧
      UpdateMetadata sampleLedger 1 (some .empty) = (some .jsonSyntax, sampleLedger) ∧
      UpdateMetadata sampleLedger 1 (some (.object [])) = (none, sampleLedger)) ∧
    UpdateMetadata (sampleLedgerWith (some (.object [([97], roundedNumber)]))) 1 none
      = (none, sampleLedgerWith
          (some (.object [([97], .decodes 9007199254740992 9007199254740992)]))) ∧
    UpdateMetadata (sampleLedgerWith (some (.object [([97], hugeNumber)]))) 1 none
      = (some .jsonType, sampleLedgerWith (some (.object [([97], hugeNumber)]))) := by
  refine ⟨⟨rfl, rfl, rfl⟩, rfl, rfl⟩

end UpdateMetadataClaims

/-! ## The bandwidth counter -/

/-- Integers below 2^53 in absolute value are Lua numbers as they are. -/
theorem luaNumber_of_lt (n : Int) (h : n.natAbs < 9007199254740992) : luaNumber n = n := by
  have hunit : float64Unit n.natAbs n.natAbs = 1 := by
    cases hn : n.natAbs with
    | zero => rfl
    | succ m =>
      rw [hn] at h
      simp [float64Unit, h]
  have hround : roundFloat64 n.natAbs = n.natAbs := by
    simp [roundFloat64, hunit, Nat.mod_one]
  unfold luaNumber
  rw [hround]
  split <;> omega

/-- C7 at a failing input. Two calls of `UpdateProjectBandwidthUsage` on one
bandwidth key that starts absent, both with the increment 0, the first with a
time to live of 10 seconds and the second with 20: after the first call the key
has a time to live of 10, and the second call sets it to 20, because the
counter after the increment again equals the increment. The same happens to the
third of the calls with the increments 5, -5 and 7. -/
theorem UpdateProjectBandwidthUsage_ttl_reset :
    (updateCalls [] sampleID ⟨2024, 3, 4⟩ [(0, 10)]).ttl
        (createBandwidthProjectIDKey sampleID ⟨2024, 3, 4⟩) = some 10 ∧
    (updateCalls [] sampleID ⟨2024, 3, 4⟩ [(0, 10), (0, 20)]).ttl
        (createBandwidthProjectIDKey sampleID ⟨2024, 3, 4⟩) = some 20 ∧
    (updateCalls [] sampleID ⟨2024, 3, 4⟩ [(5, 10), (-5, 20)]).ttl
        (createBandwidthProjectIDKey sampleID ⟨2024, 3, 4⟩) = some 10 ∧
    (updateCalls [] sampleID ⟨2024, 3, 4⟩ [(5, 10), (-5, 20), (7, 30)]).ttl
        (createBandwidthProjectIDKey sampleID ⟨2024, 3, 4⟩) = some 30 := by
  refine ⟨by decide, by decide, by decide, by decide⟩

theorem Redis.get_eq_none_iff (r : Redis) (key : Key) :
    r.get key = none ↔ mapGet r key = none := by
  unfold Redis.get
  cases mapGet r key <;> simp

/-- One call of `InsertProjectBandwidthUsage` on an absent key, with a time to
live of at least one second. -/
theorem InsertProjectBandwidthUsage_absent (cache : Redis) (p : UUID) (value ttl : Int)
    (now : Time) (habsent : cache.get (createBandwidthProjectIDKey p now) = none)
    (httl : 1 ≤ ttl) :
    ∃ cache', InsertProjectBandwidthUsage cache p value ttl now = ((true, none), cache') ∧
      cache'.get (createBandwidthProjectIDKey p now) = some (Val.int value) ∧
      cache'.ttl (createBandwidthProjectIDKey p now) = some ttl := by
  rw [Redis.get_eq_none_iff] at habsent
  have hpos : ¬ ttl ≤ 0 := by omega
  refine ⟨mapSet (mapSet cache (createBandwidthProjectIDKey p now) ⟨Val.int value, none⟩)
    (createBandwidthProjectIDKey p now) ⟨Val.int value, some ttl⟩, ?_, ?_, ?_⟩
  · simp [InsertProjectBandwidthUsage, insertScript, Redis.setnx, habsent, Redis.expire,
      mapGet_mapSet_self, hpos]
  · simp [Redis.get, mapGet_mapSet_self]
  · simp [Redis.ttl, mapGet_mapSet_self]

/-- One call of `InsertProjectBandwidthUsage` on a key that is there. -/
theorem InsertProjectBandwidthUsage_present (cache : Redis) (p : UUID) (value ttl : Int)
    (now : Time) (hpresent : cache.get (createBandwidthProjectIDKey p now) ≠ none) :
    InsertProjectBandwidthUsage cache p value ttl now = ((false, none), cache) := by
  rw [Ne, Redis.get_eq_none_iff] at hpresent
  cases hget : mapGet cache (createBandwidthProjectIDKey p now) with
  | none => exact absurd hget hpresent
  | some e => simp [InsertProjectBandwidthUsage, insertScript, Redis.setnx, hget]

theorem insertCalls_present (cache : Redis) (p : UUID) (now : Time) (calls : List (Int × Int))
    (hpresent : cache.get (createBandwidthProjectIDKey p now) ≠ none) :
    insertCalls cache p now calls = (List.replicate calls.length false, cache) := by
  induction calls with
  | nil => rfl
  | cons c rest ih =>
    obtain ⟨value, ttl⟩ := c
    simp [insertCalls, InsertProjectBandwidthUsage_present cache p value ttl now hpresent, ih,
      List.replicate_succ]

/-- C8, as amended. `InsertProjectBandwidthUsage` with a time to live of at
least one second (the duration counted in whole seconds) on an absent bandwidth
key stores the value under the key with that time to live and returns
`inserted = true`; with any time to live, on a key that is there, it returns
`inserted = false` and leaves the cache, and so the stored value and its time
to live, as they are. Hence of calls on one key executed one after the other,
the first with a time to live of at least one second, exactly the first returns
true, and the value stored afterwards is the one of the first call. -/
theorem InsertProjectBandwidthUsage_spec (cache : Redis) (p : UUID) (value ttl : Int)
    (now : Time) :
    (cache.get (createBandwidthProjectIDKey p now) = none → 1 ≤ ttl →
      ∃ cache', InsertProjectBandwidthUsage cache p value ttl now = ((true, none), cache') ∧
        cache'.get (createBandwidthProjectIDKey p now) = some (Val.int value) ∧
        cache'.ttl (createBandwidthProjectIDKey p now) = some ttl) ∧
    (cache.get (createBandwidthProjectIDKey p now) ≠ none →
      InsertProjectBandwidthUsage cache p value ttl now = ((false, none), cache)) ∧
    (cache.get (createBandwidthProjectIDKey p now) = none → 1 ≤ ttl →
      ∀ later : List (Int × Int), ∃ cache',
        insertCalls cache p now ((value, ttl) :: later)
          = (true :: List.replicate later.length false, cache') ∧
        cache'.get (createBandwidthProjectIDKey p now) = some (Val.int value) ∧
        cache'.ttl (createBandwidthProjectIDKey p now) = some ttl) := by
  refine ⟨InsertProjectBandwidthUsage_absent cache p value ttl now,
    InsertProjectBandwidthUsage_present cache p value ttl now, ?_⟩
  intro habsent httl later
  obtain ⟨cache', hins, hget, hexp⟩ :=
    InsertProjectBandwidthUsage_absent cache p value ttl now habsent httl
  refine ⟨cache', ?_, hget, hexp⟩
  have hpresent : cache'.get (createBandwidthProjectIDKey p now) ≠ none := by
    rw [hget]
    simp
  simp [insertCalls, hins, insertCalls_present cache' p now later hpresent]

/-- The statement `InsertProjectBandwidthUsage_spec` on the empty cache: of
three calls with the values 7, 8 and 9 the first one alone inserts, and the
counter holds 7 with a time to live of 60 seconds. -/
theorem InsertProjectBandwidthUsage_spec_witness :
    ∃ cache', insertCalls [] sampleID ⟨2024, 3, 4⟩ [(7, 60), (8, 30), (9, 0)]
        = ([true, false, false], cache') ∧
      cache'.get (createBandwidthProjectIDKey sampleID ⟨2024, 3, 4⟩) = some (Val.int 7) ∧
      cache'.ttl (createBandwidthProjectIDKey sampleID ⟨2024, 3, 4⟩) = some 60 :=
  (InsertProjectBandwidthUsage_spec [] sampleID 7 60 ⟨2024, 3, 4⟩).2.2 rfl (by decide)
    [(8, 30), (9, 0)]

/-- C8, as stated, fails for a time to live under one second. On the empty
cache, `InsertProjectBandwidthUsage` with the value 7 and a time to live of 0
seconds returns `inserted = true` and leaves the key absent: the script sets
the key and then expires it with a timeout of 0, which deletes it. A second
call, with the value 8, returns `inserted = true` again. -/
theorem InsertProjectBandwidthUsage_zero_ttl_counterexample :
    InsertProjectBandwidthUsage [] sampleID 7 0 ⟨2024, 3, 4⟩ = ((true, none), []) ∧
    Redis.get (InsertProjectBandwidthUsage [] sampleID 7 0 ⟨2024, 3, 4⟩).2
        (createBandwidthProjectIDKey sampleID ⟨2024, 3, 4⟩) = none ∧
    insertCalls [] sampleID ⟨2024, 3, 4⟩ [(7, 0), (8, 0)] = ([true, true], []) := by
  refine ⟨by decide, by decide, by decide⟩

/-! ## The retry loop of `Insert` -/

section RetryLoop

variable {σ V : Type}

/-- The loop of `Insert` over `tryInsert` is the loop over an attempt. -/
theorem insertRetry_eq_retryLoop (remaining retryCount : Nat) (db : DB V)
    (others : Nat → DB V → DB V) (primaryTx : Transaction V)
    (supplementalTxs : List (Transaction V)) :
    insertRetry remaining retryCount db others primaryTx supplementalTxs
      = retryLoop remaining retryCount
          (fun n d => tryInsert d (others n) primaryTx supplementalTxs) db := by
  induction remaining generalizing retryCount db with
  | zero => rfl
  | succ n ih =>
    simp only [insertRetry, retryLoop]
    cases h : tryInsert db (others retryCount) primaryTx supplementalTxs with
    | mk out db1 =>
      cases out with
      | ok txIDs => rfl
      | error err =>
        simp only
        rw [ih]

/-- Source `Insert` is `InsertWith` for the attempt `tryInsert`. -/
theorem Insert_eq_InsertWith (db : DB V) (others : Nat → DB V → DB V)
    (primaryTx : Transaction V) (supplementalTxs : List (Transaction V)) :
    Insert db others primaryTx supplementalTxs
      = InsertWith (fun n d => tryInsert d (others n) primaryTx supplementalTxs) db
          supplementalTxs := by
  simp only [Insert, InsertWith, insertRetry_eq_retryLoop]

theorem attempt_eq (attempt : Nat → σ → Except BillingErr (List Int) × σ) (s : σ) (n : Nat) :
    attempt n (stateBefore attempt s n)
      = (outcomeOf attempt s n, stateBefore attempt s (n + 1)) := rfl

/-- The loop from attempt `c` on, when the attempts from `c` up to `n` fail
with a constraint violation and attempt `n` does not: the loop returns what
attempt `n` returns, and the store is the one after attempt `n`. -/
theorem retryLoop_decisive (attempt : Nat → σ → Except BillingErr (List Int) × σ) (s : σ)
    (r c n : Nat) (hcn : c ≤ n) (hnr : n < c + r)
    (hcv : ∀ i, c ≤ i → i < n → outcomeOf attempt s i = .error .constraintViolation)
    (hn : outcomeOf attempt s n ≠ .error .constraintViolation) :
    retryLoop r c attempt (stateBefore attempt s c)
      = (outcomeOf attempt s n, stateBefore attempt s (n + 1)) := by
  induction r generalizing c with
  | zero => omega
  | succ r ih =>
    by_cases hc : c = n
    · subst hc
      rw [retryLoop, attempt_eq attempt s c]
      cases hout : outcomeOf attempt s c with
      | ok txIDs => rfl
      | error err =>
        have herr : err ≠ .constraintViolation := by
          intro e
          apply hn
          rw [hout, e]
        simp [IsConstraintViolation, herr]
    · have hlt : c < n := by omega
      have hout := hcv c (le_refl c) hlt
      rw [retryLoop, attempt_eq attempt s c, hout]
      simp only [IsConstraintViolation, decide_True, if_true]
      exact ih (c + 1) (by omega) (by omega) (fun i h1 h2 => hcv i (by omega) h2)

/-- The loop from attempt `c` on, when all its attempts fail with a constraint
violation: the loop gives up after the last of them. -/
theorem retryLoop_exhausted (attempt : Nat → σ → Except BillingErr (List Int) × σ) (s : σ)
    (r c : Nat)
    (hcv : ∀ i, c ≤ i → i < c + r → outcomeOf attempt s i = .error .constraintViolation) :
    retryLoop r c attempt (stateBefore attempt s c)
      = (.error .retriesExhausted, stateBefore attempt s (c + r)) := by
  induction r generalizing c with
  | zero => rfl
  | succ r ih =>
    have hout := hcv c (le_refl c) (by omega)
    rw [retryLoop, attempt_eq attempt s c, hout]
    simp only [IsConstraintViolation, decide_True, if_true]
    rw [ih (c + 1) (fun i h1 h2 => hcv i (by omega) (by omega))]
    have : c + 1 + r = c + (r + 1) := by omega
    rw [this]

/-- The loop makes at least one and at most `r` attempts. -/
theorem retryLoop_attempts (attempt : Nat → σ → Except BillingErr (List Int) × σ) (s : σ)
    (r c : Nat) (hr : 1 ≤ r) :
    ∃ m, 1 ≤ m ∧ m ≤ r ∧
      (retryLoop r c attempt (stateBefore attempt s c)).2 = stateBefore attempt s (c + m) := by
  induction r generalizing c with
  | zero => omega
  | succ r ih =>
    rw [retryLoop, attempt_eq attempt s c]
    cases hout : outcomeOf attempt s c with
    | ok txIDs => exact ⟨1, le_refl 1, by omega, rfl⟩
    | error err =>
      by_cases herr : IsConstraintViolation err = true
      · simp only [herr, if_true]
        by_cases hr0 : r = 0
        · subst hr0
          exact ⟨1, le_refl 1, le_refl 1, rfl⟩
        · obtain ⟨m, _, hm, hst⟩ := ih (c + 1) (by omega)
          refine ⟨m + 1, by omega, by omega, ?_⟩
          rw [hst]
          have : c + 1 + m = c + (m + 1) := by omega
          rw [this]
      · simp only [herr]
        exact ⟨1, le_refl 1, by omega, rfl⟩

end RetryLoop

section RetryClaims

variable {σ V : Type}

/-- C11. For a call of `Insert` with at most 5 supplemental transactions and
any attempts (source `Insert` is `InsertWith` for the attempt `tryInsert`):
`Insert` makes at least one and at most 5 attempts; when the attempts before
attempt `n`, one of the first five, all fail with a constraint violation and
attempt `n` succeeds, `Insert` returns the ids of attempt `n`, and when attempt
`n` fails with another error, `InsufficientFunds` included, `Insert` returns
that error; in both cases the store is the one that attempt `n` leaves, so no
further attempt is made. When the first 5 attempts all fail with a constraint
violation, `Insert` returns an error and no ids, after these 5 attempts. -/
theorem Insert_retry (attempt : Nat → σ → Except BillingErr (List Int) × σ) (s : σ)
    (supplementalTxs : List (Transaction V)) (hlen : supplementalTxs.length ≤ 5) :
    (∀ (db : DB V) (others : Nat → DB V → DB V) (primaryTx : Transaction V),
      Insert db others primaryTx supplementalTxs
        = InsertWith (fun n d => tryInsert d (others n) primaryTx supplementalTxs) db
            supplementalTxs) ∧
    (∃ m, 1 ≤ m ∧ m ≤ 5 ∧
      (InsertWith attempt s supplementalTxs).2 = stateBefore attempt s m) ∧
    (∀ n txIDs, n < 5 →
      (∀ i, i < n → outcomeOf attempt s i = .error .constraintViolation) →
      outcomeOf attempt s n = .ok txIDs →
      InsertWith attempt s supplementalTxs = (.ok txIDs, stateBefore attempt s (n + 1))) ∧
    (∀ n err, n < 5 →
      (∀ i, i < n → outcomeOf attempt s i = .error .constraintViolation) →
      outcomeOf attempt s n = .error err → err ≠ .constraintViolation →
      InsertWith attempt s supplementalTxs = (.error err, stateBefore attempt s (n + 1))) ∧
    IsConstraintViolation .InsufficientFunds = false ∧
    ((∀ i, i < 5 → outcomeOf attempt s i = .error .constraintViolation) →
      InsertWith attempt s supplementalTxs
        = (.error .retriesExhausted, stateBefore attempt s 5)) := by
  have hnot : ¬ supplementalTxs.length > supplementalTxLimit := by
    unfold supplementalTxLimit; omega
  have hloop : InsertWith attempt s supplementalTxs
      = retryLoop 5 0 attempt (stateBefore attempt s 0) := by
    simp only [InsertWith, hnot, if_false, stateBefore]
  refine ⟨fun db others primaryTx => Insert_eq_InsertWith db others primaryTx supplementalTxs,
    ?_, ?_, ?_, rfl, ?_⟩
  · obtain ⟨m, h1, h5, hst⟩ := retryLoop_attempts attempt s 5 0 (by omega)
    refine ⟨m, h1, h5, ?_⟩
    rw [hloop, hst, Nat.zero_add]
  · intro n txIDs hn hcv hout
    rw [hloop, retryLoop_decisive attempt s 5 0 n (Nat.zero_le n) (by omega)
      (fun i _ hi => hcv i hi) (by rw [hout]; simp), hout]
  · intro n err hn hcv hout herr
    rw [hloop, retryLoop_decisive attempt s 5 0 n (Nat.zero_le n) (by omega)
      (fun i _ hi => hcv i hi) (by rw [hout]; simpa using herr), hout]
  · intro hcv
    rw [hloop, retryLoop_exhausted attempt s 5 0 (fun i _ hi => hcv i (by omega))]

/-- The statement `Insert_retry` on a store that counts the attempts, where
the first two attempts fail with a constraint violation and the third
succeeds with the ids 7 and 8: `Insert` returns these ids and three attempts
have been made. -/
theorem Insert_retry_witness :
    InsertWith countingAttempt 0 ([] : List (Transaction Int)) = (.ok [7, 8], 3) :=
  (Insert_retry countingAttempt 0 ([] : List (Transaction Int)) (by decide)).2.2.1 2 [7, 8]
    (by decide)
    (by
      intro i hi
      interval_cases i <;> rfl)
    rfl

/-- C12. A call of `Insert` with more than 5 supplemental transactions returns
an error and no ids, whatever the database holds and whatever an attempt would
do, and leaves the store as it is: no attempt is made. With exactly 5
supplemental transactions the call goes on to the attempts, and returns the
ids of the first attempt when that succeeds. -/
theorem Insert_supplemental_limit (db : DB V) (others : Nat → DB V → DB V)
    (primaryTx : Transaction V) (supplementalTxs : List (Transaction V))
    (attempt : Nat → σ → Except BillingErr (List Int) × σ) (s : σ) :
    (supplementalTxs.length > 5 →
      Insert db others primaryTx supplementalTxs = (.error .tooManySupplementalTxs, db) ∧
      InsertWith attempt s supplementalTxs = (.error .tooManySupplementalTxs, s)) ∧
    (supplementalTxs.length = 5 →
      Insert db others primaryTx supplementalTxs
        = insertRetry 5 0 db others primaryTx supplementalTxs ∧
      InsertWith attempt s supplementalTxs = retryLoop 5 0 attempt s ∧
      (∀ txIDs s1, attempt 0 s = (.ok txIDs, s1) →
        InsertWith attempt s supplementalTxs = (.ok txIDs, s1))) := by
  constructor
  · intro hlen
    have hgt : supplementalTxs.length > supplementalTxLimit := by
      unfold supplementalTxLimit; omega
    simp only [Insert, InsertWith, hgt, if_true, and_self]
  · intro hlen
    have hnot : ¬ supplementalTxs.length > supplementalTxLimit := by
      unfold supplementalTxLimit; omega
    refine ⟨?_, ?_, ?_⟩
    · simp only [Insert, hnot, if_false]
    · simp only [InsertWith, hnot, if_false]
    · intro txIDs s1 h
      simp only [InsertWith, hnot, if_false, retryLoop, h]

/-- The statement `Insert_supplemental_limit` on the sample database: with six
supplemental transactions of the sample user `Insert` fails and the database
is as before, on a store that counts the attempts none is counted, and with
five supplemental transactions `Insert` goes on to the attempts, which give
the six new rows the ids 1 to 6. -/
theorem Insert_supplemental_limit_witness :
    (Insert sampleDB (fun _ d => d) (sampleTx 1) (List.replicate 6 (sampleTx 1))
        = (.error .tooManySupplementalTxs, sampleDB) ∧
      InsertWith countingAttempt 0 (List.replicate 6 (sampleTx 1))
        = (.error .tooManySupplementalTxs, 0)) ∧
    Insert sampleDB (fun _ d => d) (sampleTx 1) (List.replicate 5 (sampleTx 1))
      = insertRetry 5 0 sampleDB (fun _ d => d) (sampleTx 1) (List.replicate 5 (sampleTx 1)) ∧
    (Insert sampleDB (fun _ d => d) (sampleTx 1) (List.replicate 5 (sampleTx 1))).1
      = .ok [1, 2, 3, 4, 5, 6] :=
  ⟨(Insert_supplemental_limit sampleDB (fun _ d => d) (sampleTx 1)
      (List.replicate 6 (sampleTx 1)) countingAttempt 0).1 (by decide),
    ((Insert_supplemental_limit sampleDB (fun _ d => d) (sampleTx 1)
      (List.replicate 5 (sampleTx 1)) countingAttempt 0).2 (by decide)).1,
    rfl⟩

end RetryClaims

end Storj
